import Mathlib

/-!
Verification development for the `opencode-workspace` plan-management plugin.

The TypeScript source (`src/plugin/workspace-plugin.ts` and the project-id
helper) is shallowly embedded below.  JavaScript strings are modelled as
`List Char`; the regular expressions of the extractor are translated into
explicit scanning functions whose behaviour matches the backtracking
semantics of the JS regex engine (greedy character classes followed by a
mandatory literal admit no backtracking, lazy quantifiers take the shortest
match, `exec` with the `g` flag restarts the search at the end of the
previous match).  Stateful host interaction (filesystem, git, session
queries) is modelled by explicit environments and state passing.
-/

set_option autoImplicit false
set_option maxRecDepth 10000

namespace Workspace

/-- Characters of a JavaScript string, as a list of Unicode scalars. -/
abbrev Str := List Char

/-- Whitespace recognised by JavaScript `String.prototype.trim` (ASCII
subset; the exotic Unicode space characters never occur in the texts in
scope of the plugin). -/
def isWS (c : Char) : Bool :=
  c == ' ' || c == '\t' || c == '\n' || c == '\r' || c == '\x0b' || c == '\x0c'

/-- Left part of JavaScript `trim`. -/
def trimL (l : Str) : Str := l.dropWhile isWS

/-- Right part of JavaScript `trim`. -/
def trimR (l : Str) : Str := (l.reverse.dropWhile isWS).reverse

/-- JavaScript `String.prototype.trim`. -/
def trimJS (l : Str) : Str := trimR (trimL l)

/-- Numeric value of a list of decimal digit characters. -/
def natOfDigits (l : Str) : Nat := l.foldl (fun a c => 10 * a + (c.toNat - 48)) 0

/-- Longest decimal-digit prefix, `none` when there is none. -/
def digitsPrefixVal (l : Str) : Option Nat :=
  let d := l.takeWhile Char.isDigit
  if d.isEmpty then none else some (natOfDigits d)

/-- JavaScript `parseInt(v, 10)`: skip leading whitespace, optional sign,
then the longest digit prefix; `none` models `NaN`. -/
def parseIntJS (v : Str) : Option Int :=
  match trimL v with
  | '-' :: r => (digitsPrefixVal r).map (fun n => -(n : Int))
  | '+' :: r => (digitsPrefixVal r).map (fun n => (n : Int))
  | r => (digitsPrefixVal r).map (fun n => (n : Int))

/-- Boolean "is the first list an initial segment of the second". -/
def startsWith : Str → Str → Bool
  | [], _ => true
  | _ :: _, [] => false
  | p :: ps, c :: cs => p == c && startsWith ps cs

/-- JavaScript `String.prototype.split` on a single-character separator
(keeps empty segments, `"" → [""]`). -/
def splitOnChar (sep : Char) : Str → List Str
  | [] => [[]]
  | c :: rest =>
    if c == sep then [] :: splitOnChar sep rest
    else
      match splitOnChar sep rest with
      | st :: ss => (c :: st) :: ss
      | [] => [[c]]

/-- JavaScript `Array.prototype.join` on string pieces. -/
def joinStr (sep : Str) : List Str → Str
  | [] => []
  | [x] => x
  | x :: xs => x ++ sep ++ joinStr sep xs

/-- Split a string at the first occurrence of `pat` (the occurrence itself
is removed); `none` if `pat` does not occur.  This is the semantics of a
lazy `([\s\S]*?)` group followed by the literal `pat`. -/
def splitFirst (pat : Str) : Str → Option (Str × Str)
  | [] => if startsWith pat [] then some ([], []) else none
  | c :: rest =>
    if startsWith pat (c :: rest) then some ([], (c :: rest).drop pat.length)
    else
      match splitFirst pat rest with
      | some (a, b) => some (c :: a, b)
      | none => none

-- ==========================================
-- MARKDOWN EXTRACTION  (extractMarkdownParts)
-- ==========================================

/-- A frontmatter record value: every key keeps its trimmed string value,
except `phase`, which is coerced with `parseInt` (`none` models `NaN`). -/
inductive FmVal where
  | str (v : Str)
  | num (v : Option Int)
deriving DecidableEq, Repr

/-- JavaScript object assignment `record[k] = v`: replace the value of an
existing key in place, otherwise append (insertion order is kept). -/
def recordSet (r : List (Str × FmVal)) (k : Str) (v : FmVal) : List (Str × FmVal) :=
  if r.any (fun kv => kv.1 == k) then
    r.map (fun kv => if kv.1 == k then (k, v) else kv)
  else r ++ [(k, v)]

/-- Value stored for a frontmatter key (`phase` is `parseInt`-coerced). -/
def mkFmVal (k v : Str) : FmVal :=
  if k = "phase".data then FmVal.num (parseIntJS v) else FmVal.str v

/-- Processing of one frontmatter line: split on `":"`, require a non-empty
key and at least one colon, re-join the value parts with `":"`, trim both. -/
def parseFmLineInto (r : List (Str × FmVal)) (line : Str) : List (Str × FmVal) :=
  match splitOnChar ':' line with
  | [] => r
  | key :: valueParts =>
    if key.isEmpty || valueParts.isEmpty then r
    else
      let value := trimJS (joinStr [':'] valueParts)
      recordSet r (trimJS key) (mkFmVal (trimJS key) value)

/-- Fold of `parseFmLineInto` over the lines of the frontmatter body. -/
def parseFmRecord (body : Str) : List (Str × FmVal) :=
  (splitOnChar '\n' body).foldl parseFmLineInto []

/-- The frontmatter regex `^---\n([\s\S]*?)\n---` (anchored): the content must start
with `"---\n"`, and the (lazy) body runs up to the first `"\n---"`. -/
def extractFrontmatter (content : Str) : Option (List (Str × FmVal)) :=
  match content with
  | '-' :: '-' :: '-' :: '\n' :: rest =>
    match splitFirst ('\n' :: '-' :: '-' :: '-' :: []) rest with
    | some (body, _) => some (parseFmRecord body)
    | none => none
  | _ => none

/-- Search for the goal regex `## Goal\n([^\n#]+)`: the first position at
which `"## Goal\n"` is followed by at least one character that is neither a
newline nor `#`; the captured group is the maximal such run. -/
def goalSearch : Str → Option Str
  | [] => none
  | c :: rest =>
    if startsWith "## Goal\n".data (c :: rest) then
      let g := ((c :: rest).drop 8).takeWhile (fun ch => ch != '\n' && ch != '#')
      if g.isEmpty then goalSearch rest else some g
    else goalSearch rest

/-- `content.match(/## Goal\n([^\n#]+)/)?.[1]?.trim() || null`. -/
def extractGoal (content : Str) : Option Str :=
  match goalSearch content with
  | some g => if (trimJS g).isEmpty then none else some (trimJS g)
  | none => none

/-- Raw task produced by the task regex (before validation). -/
structure RawTask where
  id : Str
  checked : Bool
  content : Str
  isCurrent : Bool
  citation : Option Str
deriving DecidableEq, Repr

/-- Raw phase produced by the phase regex (before validation). -/
structure RawPhase where
  number : Nat
  name : Str
  status : Str
  tasks : List RawTask
deriving DecidableEq, Repr

/-- The `(\d+\.\d+)` group: longest digit run, a dot, a longest digit run.
Greedy digit runs followed by a mandatory non-digit admit no backtracking. -/
def matchTaskId (l : Str) : Option (Str × Str) :=
  let d1 := l.takeWhile Char.isDigit
  if d1.isEmpty then none
  else
    match l.dropWhile Char.isDigit with
    | '.' :: r =>
      let d2 := r.takeWhile Char.isDigit
      if d2.isEmpty then none
      else some (d1 ++ '.' :: d2, r.dropWhile Char.isDigit)
    | _ => none

def isLowerAZ (c : Char) : Bool := decide ('a' ≤ c) && decide (c ≤ 'z')

/-- The citation group `` (`ref:[a-z]+-[a-z]+-[a-z]+`)? `` matched literally
at the current position.  The returned citation already has the backticks
removed, mirroring `taskMatch[6]?.replace(/`/g, "")`. -/
def matchCitation (l : Str) : Option (Str × Str) :=
  match l with
  | '`' :: 'r' :: 'e' :: 'f' :: ':' :: l1 =>
    let w1 := l1.takeWhile isLowerAZ
    if w1.isEmpty then none
    else
      match l1.dropWhile isLowerAZ with
      | '-' :: l2 =>
        let w2 := l2.takeWhile isLowerAZ
        if w2.isEmpty then none
        else
          match l2.dropWhile isLowerAZ with
          | '-' :: l3 =>
            let w3 := l3.takeWhile isLowerAZ
            if w3.isEmpty then none
            else
              match l3.dropWhile isLowerAZ with
              | '`' :: l4 =>
                some ('r' :: 'e' :: 'f' :: ':' :: (w1 ++ '-' :: (w2 ++ '-' :: w3)), l4)
              | _ => none
          | _ => none
      | _ => none
  | _ => none

/-- JavaScript `.replace(/\*\*/g, "")`: remove non-overlapping `**` pairs,
scanning left to right. -/
def replaceStarPairs : Str → Str
  | [] => []
  | '*' :: '*' :: rest => replaceStarPairs rest
  | c :: rest => c :: replaceStarPairs rest

/-- One attempt of the task regex
`- \[([ x])\] (\*\*)?(\d+\.\d+) ([^←\n]+)(← CURRENT)?.*?(citation)?`
(where `citation` is the backtick-quoted `ref:` token) at the current
position.

Backtracking analysis justifying this translation:
the greedy `([^←\n]+)` consumes up to the next `←` or newline and is
followed only by optional and lazy parts, so it never gives characters
back; `(← CURRENT)?` matches exactly when that literal follows; the lazy
`.*?` matches the empty string on the first overall success, so the
optional citation group can only match when the backtick token begins
exactly at the position reached so far — otherwise both trailing groups
succeed with the empty match and the citation capture stays `undefined`.
The optional `(\*\*)?` group consumes a leading `**` when present; if the
id does not follow it, retrying without the `**` also fails, because the
next character is then `*`, not a digit. -/
def matchTask (l : Str) : Option (RawTask × Str) :=
  match l with
  | '-' :: ' ' :: '[' :: box :: ']' :: ' ' :: r0 =>
    if box == ' ' || box == 'x' then
      let r1 := if startsWith "**".data r0 then r0.drop 2 else r0
      match matchTaskId r1 with
      | some (idStr, r2) =>
        match r2 with
        | ' ' :: r3 =>
          let contentRaw := r3.takeWhile (fun ch => ch != '←' && ch != '\n')
          if contentRaw.isEmpty then none
          else
            let r4 := r3.dropWhile (fun ch => ch != '←' && ch != '\n')
            let isCur := startsWith "← CURRENT".data r4
            let r5 := if isCur then r4.drop 9 else r4
            match matchCitation r5 with
            | some (cit, r6) =>
              some ({ id := idStr, checked := box == 'x',
                      content := replaceStarPairs (trimJS contentRaw),
                      isCurrent := isCur, citation := some cit }, r6)
            | none =>
              some ({ id := idStr, checked := box == 'x',
                      content := replaceStarPairs (trimJS contentRaw),
                      isCurrent := isCur, citation := none }, r5)
        | _ => none
      | none => none
    else none
  | _ => none

/-- Repeated `taskRegex.exec`: try every start position left to right and
continue each search at the end of the previous match.  The fuel is the
length of the scanned string, which suffices because every match consumes
at least one character. -/
def extractTasksGo : Nat → Str → List RawTask
  | 0, _ => []
  | _ + 1, [] => []
  | fuel + 1, c :: rest =>
    match matchTask (c :: rest) with
    | some (t, r) => t :: extractTasksGo fuel r
    | none => extractTasksGo fuel rest

def extractTasks (l : Str) : List RawTask := extractTasksGo l.length l

/-- The `## Phase \d+:` lookahead alternative. -/
def isPhaseColonAhead (l1 : Str) : Bool :=
  !(l1.takeWhile Char.isDigit).isEmpty &&
    (match l1.dropWhile Char.isDigit with
     | ':' :: _ => true
     | _ => false)

/-- The lookahead `(?=## Phase \d+:|## Notes|## Blockers|$)` tested at one
position (`$` is handled by the caller running out of input). -/
def isBodyEnd (l : Str) : Bool :=
  (match l with
   | '#' :: '#' :: ' ' :: 'P' :: 'h' :: 'a' :: 's' :: 'e' :: ' ' :: l1 => isPhaseColonAhead l1
   | _ => false)
  || startsWith "## Notes".data l || startsWith "## Blockers".data l

/-- The lazy phase body `([\s\S]*?)` with the lookahead above: the shortest
prefix whose end satisfies the lookahead (or the whole rest at `$`). -/
def takeBody : Str → Str × Str
  | [] => ([], [])
  | c :: rest =>
    if isBodyEnd (c :: rest) then ([], c :: rest)
    else
      let p := takeBody rest
      (c :: p.1, p.2)

/-- Head of the phase regex `## Phase (\d+): ([^[]+)\[([^\]]+)\]\n` tried at
one position.  Greedy classes followed by mandatory literals admit no
backtracking, exactly as translated. -/
def matchPhaseHeader (l : Str) : Option (Nat × Str × Str × Str) :=
  match l with
  | '#' :: '#' :: ' ' :: 'P' :: 'h' :: 'a' :: 's' :: 'e' :: ' ' :: l1 =>
    let ds := l1.takeWhile Char.isDigit
    if ds.isEmpty then none
    else
      match l1.dropWhile Char.isDigit with
      | ':' :: ' ' :: l2 =>
        let nm := l2.takeWhile (fun ch => ch != '[')
        if nm.isEmpty then none
        else
          match l2.dropWhile (fun ch => ch != '[') with
          | '[' :: l3 =>
            let st := l3.takeWhile (fun ch => ch != ']')
            if st.isEmpty then none
            else
              match l3.dropWhile (fun ch => ch != ']') with
              | ']' :: '\n' :: rest => some (natOfDigits ds, nm, st, rest)
              | _ => none
          | _ => none
      | _ => none
  | _ => none

/-- Repeated `phaseRegex.exec` over the whole content, with the captured
name and status trimmed as in the source.  A phase with zero matched tasks
is still emitted. -/
def extractPhasesGo : Nat → Str → List RawPhase
  | 0, _ => []
  | _ + 1, [] => []
  | fuel + 1, c :: rest =>
    match matchPhaseHeader (c :: rest) with
    | some (num, nm, st, afterHeader) =>
      let bp := takeBody afterHeader
      { number := num, name := trimJS nm, status := trimJS st,
        tasks := extractTasks bp.1 } :: extractPhasesGo fuel bp.2
    | none => extractPhasesGo fuel rest

def extractPhases (content : Str) : List RawPhase :=
  extractPhasesGo content.length content

/-- Raw extraction result (the `ExtractedParts` interface). -/
structure ExtractedParts where
  frontmatter : Option (List (Str × FmVal))
  goal : Option Str
  phases : List RawPhase
deriving DecidableEq, Repr

/-- The pure extraction function `extractMarkdownParts`. -/
def extractMarkdownParts (content : Str) : ExtractedParts :=
  { frontmatter := extractFrontmatter content
    goal := extractGoal content
    phases := extractPhases content }

-- ==========================================
-- PLAN SCHEMA & VALIDATION  (Zod schemas)
-- ==========================================

/-- `z.enum(["PENDING", "IN PROGRESS", "COMPLETE", "BLOCKED"])`. -/
def phaseStatusValues : List Str :=
  ["PENDING".data, "IN PROGRESS".data, "COMPLETE".data, "BLOCKED".data]

/-- `z.enum(["not-started", "in-progress", "complete", "blocked"])`. -/
def planStatusValues : List Str :=
  ["not-started".data, "in-progress".data, "complete".data, "blocked".data]

/-- The task-id regex `^\d+\.\d+$`. -/
def matchesTaskIdRe (l : Str) : Bool :=
  !(l.takeWhile Char.isDigit).isEmpty &&
    (match l.dropWhile Char.isDigit with
     | '.' :: r => !r.isEmpty && r.all Char.isDigit
     | _ => false)

/-- The citation regex `^ref:[a-z]+-[a-z]+-[a-z]+$`: since `[a-z]` excludes
the dash, the tail must split on dashes into exactly three non-empty
lowercase words. -/
def matchesCitationRe (l : Str) : Bool :=
  startsWith "ref:".data l &&
    (match splitOnChar '-' (l.drop 4) with
     | [w1, w2, w3] =>
       !w1.isEmpty && !w2.isEmpty && !w3.isEmpty &&
         w1.all isLowerAZ && w2.all isLowerAZ && w3.all isLowerAZ
     | _ => false)

/-- The date regex `^\d{4}-\d{2}-\d{2}$`. -/
def matchesDateRe (l : Str) : Bool :=
  match l with
  | [a, b, c, d, e, f, g, h, i, j] =>
    a.isDigit && b.isDigit && c.isDigit && d.isDigit && e == '-' &&
      f.isDigit && g.isDigit && h == '-' && i.isDigit && j.isDigit
  | _ => false

/-- Validated frontmatter (the parse result of `FrontmatterSchema`; unknown
keys are stripped by `z.object`, so exactly these three fields remain). -/
structure Frontmatter where
  status : Str
  phase : Int
  updated : Str
deriving DecidableEq, Repr

/-- Validated task (the parse result of `TaskSchema`). -/
structure VTask where
  id : Str
  checked : Bool
  content : Str
  isCurrent : Bool
  citation : Option Str
deriving DecidableEq, Repr

/-- Validated phase (the parse result of `PhaseSchema`). -/
structure VPhase where
  number : Nat
  name : Str
  status : Str
  tasks : List VTask
deriving DecidableEq, Repr

/-- Validated plan (the parse result of `PlanSchema`).  The optional
`context` field is absent from every candidate built by
`parsePlanMarkdown` (the extractor never produces it), so it is omitted
from the embedding. -/
structure Plan where
  frontmatter : Frontmatter
  goal : Str
  phases : List VPhase
deriving DecidableEq, Repr

/-- One aggregated validation issue, as formatted by `formatZodErrors`
(path inside the candidate, human-readable message).  The message texts
model the Zod issue messages after the two readability refinements; no
claim depends on their exact wording. -/
structure Issue where
  path : Str
  msg : Str
deriving DecidableEq, Repr

/-- Issues of a failed check, `[]` for a successful one. -/
def errsOf {α : Type} : Except (List Issue) α → List Issue
  | .ok _ => []
  | .error es => es

def natToStr (n : Nat) : Str := (Nat.repr n).data

def checkStatusFm (r : List (Str × FmVal)) : Except (List Issue) Str :=
  match r.lookup "status".data with
  | some (FmVal.str v) =>
    if planStatusValues.contains v then .ok v
    else
      .error [⟨"frontmatter.status".data,
        "Invalid value \"".data ++ v ++
          "\". Expected: not-started | in-progress | complete | blocked".data⟩]
  | some (FmVal.num _) =>
    .error [⟨"frontmatter.status".data, "Invalid type: expected string".data⟩]
  | none => .error [⟨"frontmatter.status".data, "Required field missing".data⟩]

def checkPhaseFm (r : List (Str × FmVal)) : Except (List Issue) Int :=
  match r.lookup "phase".data with
  | some (FmVal.num (some n)) =>
    if 0 < n then .ok n
    else .error [⟨"frontmatter.phase".data, "Number must be greater than 0".data⟩]
  | some (FmVal.num none) =>
    .error [⟨"frontmatter.phase".data, "Invalid type: expected number, received NaN".data⟩]
  | some (FmVal.str _) =>
    .error [⟨"frontmatter.phase".data, "Invalid type: expected number".data⟩]
  | none => .error [⟨"frontmatter.phase".data, "Required field missing".data⟩]

def checkUpdatedFm (r : List (Str × FmVal)) : Except (List Issue) Str :=
  match r.lookup "updated".data with
  | some (FmVal.str v) =>
    if matchesDateRe v then .ok v
    else .error [⟨"frontmatter.updated".data, "Date must be YYYY-MM-DD".data⟩]
  | some (FmVal.num _) =>
    .error [⟨"frontmatter.updated".data, "Invalid type: expected string".data⟩]
  | none => .error [⟨"frontmatter.updated".data, "Required field missing".data⟩]

/-- `FrontmatterSchema.safeParse` on the extracted record (`null` becomes a
missing-required-field issue; unknown keys are ignored and stripped). -/
def checkFrontmatter (o : Option (List (Str × FmVal))) : Except (List Issue) Frontmatter :=
  match o with
  | none => .error [⟨"frontmatter".data, "Required field missing".data⟩]
  | some r =>
    match checkStatusFm r, checkPhaseFm r, checkUpdatedFm r with
    | .ok a, .ok b, .ok c => .ok ⟨a, b, c⟩
    | ra, rb, rc => .error (errsOf ra ++ errsOf rb ++ errsOf rc)

/-- `z.string().min(10)` on the goal (`null` is a missing field). -/
def checkGoal (o : Option Str) : Except (List Issue) Str :=
  match o with
  | none => .error [⟨"goal".data, "Required field missing".data⟩]
  | some g =>
    if 10 ≤ g.length then .ok g
    else .error [⟨"goal".data, "Goal must be at least 10 characters".data⟩]

/-- `TaskSchema.safeParse` on one raw task. -/
def checkTask (pfx : Str) (t : RawTask) : Except (List Issue) VTask :=
  let eid :=
    if matchesTaskIdRe t.id then []
    else [⟨pfx ++ ".id".data, "Task ID must be hierarchical (e.g., \x272.1\x27)".data⟩]
  let econ :=
    if t.content.isEmpty then [⟨pfx ++ ".content".data, "Task content cannot be empty".data⟩]
    else []
  let ecit :=
    match t.citation with
    | none => []
    | some c =>
      if matchesCitationRe c then []
      else [⟨pfx ++ ".citation".data, "Citation must be ref:word-word-word format".data⟩]
  match eid ++ econ ++ ecit with
  | [] => .ok ⟨t.id, t.checked, t.content, t.isCurrent, t.citation⟩
  | es => .error es

def checkTasksFrom (pfx : Str) : Nat → List RawTask → Except (List Issue) (List VTask)
  | _, [] => .ok []
  | i, t :: ts =>
    match checkTask (pfx ++ '.' :: natToStr i) t, checkTasksFrom pfx (i + 1) ts with
    | .ok v, .ok vs => .ok (v :: vs)
    | a, b => .error (errsOf a ++ errsOf b)

/-- `PhaseSchema.safeParse` on one raw phase. -/
def checkPhase (pfx : Str) (p : RawPhase) : Except (List Issue) VPhase :=
  let e1 :=
    if 0 < p.number then []
    else [⟨pfx ++ ".number".data, "Number must be greater than 0".data⟩]
  let e2 :=
    if p.name.isEmpty then [⟨pfx ++ ".name".data, "Phase name cannot be empty".data⟩]
    else []
  let e3 :=
    if phaseStatusValues.contains p.status then []
    else
      [⟨pfx ++ ".status".data,
        "Invalid value \"".data ++ p.status ++
          "\". Expected: PENDING | IN PROGRESS | COMPLETE | BLOCKED".data⟩]
  let etk : Except (List Issue) (List VTask) :=
    if p.tasks.isEmpty then
      .error [⟨pfx ++ ".tasks".data, "Phase must have at least one task".data⟩]
    else checkTasksFrom (pfx ++ ".tasks".data) 0 p.tasks
  match e1 ++ e2 ++ e3, etk with
  | [], .ok ts => .ok ⟨p.number, p.name, p.status, ts⟩
  | es, r => .error (es ++ errsOf r)

def checkPhasesFrom : Nat → List RawPhase → Except (List Issue) (List VPhase)
  | _, [] => .ok []
  | i, p :: ps =>
    match checkPhase ("phases.".data ++ natToStr i) p, checkPhasesFrom (i + 1) ps with
    | .ok v, .ok vs => .ok (v :: vs)
    | a, b => .error (errsOf a ++ errsOf b)

/-- `z.array(PhaseSchema).min(1)`. -/
def checkPhases (ps : List RawPhase) : Except (List Issue) (List VPhase) :=
  if ps.isEmpty then .error [⟨"phases".data, "Plan must have at least one phase".data⟩]
  else checkPhasesFrom 0 ps

/-- `PlanSchema.safeParse` on the candidate built from the extracted parts,
aggregating every violated constraint in shape order. -/
def planSafeParse (parts : ExtractedParts) : Except (List Issue) Plan :=
  match checkFrontmatter parts.frontmatter, checkGoal parts.goal, checkPhases parts.phases with
  | .ok f, .ok g, .ok ps => .ok ⟨f, g, ps⟩
  | a, b, c => .error (errsOf a ++ errsOf b ++ errsOf c)

/-- One line of `formatZodErrors`. -/
def formatIssue (i : Issue) : Str :=
  (if i.path.isEmpty then "[root]".data else '[' :: (i.path ++ [']'])) ++ ':' :: ' ' :: i.msg

/-- `formatZodErrors`: every issue on its own line. -/
def formatZodErrors (es : List Issue) : Str :=
  List.intercalate ['\n'] (es.map formatIssue)

/-- The `ParseResult` discriminated union. -/
inductive ParseResult where
  | ok (data : Plan) (warnings : List Str)
  | err (error : Str) (hint : Str)
deriving DecidableEq, Repr

def skillHint : Str := "Load skill(\x27plan-protocol\x27) for the full format spec.".data

/-- Count of tasks flagged current across all phases (the
`currentCount` loop of `parsePlanMarkdown`). -/
def countCurrent (p : Plan) : Nat :=
  (p.phases.map (fun ph => (ph.tasks.filter (fun t => t.isCurrent)).length)).sum

/-- Count of phases with status `IN PROGRESS` (the `inProgressCount` loop). -/
def countInProgress (p : Plan) : Nat :=
  (p.phases.filter (fun ph => ph.status == "IN PROGRESS".data)).length

def multiCurrentMsg (n : Nat) : Str :=
  "Multiple tasks marked ← CURRENT (found ".data ++ natToStr n ++
    "). Only one task may be current.".data

def inProgressWarning : Str :=
  "Multiple phases marked IN PROGRESS. Consider focusing on one phase at a time.".data

/-- `parsePlanMarkdown`: guard on blank input, extract, validate against
the schema, then run the cross-cutting business rules.  The
`typeof content !== "string"` guard is unrepresentable here because the
embedding types the input as a string. -/
def parsePlanMarkdown (content : Str) : ParseResult :=
  if (trimJS content).isEmpty then .err "Empty content provided".data skillHint
  else
    match planSafeParse (extractMarkdownParts content) with
    | .error issues => .err (formatZodErrors issues) skillHint
    | .ok data =>
      if 1 < countCurrent data then .err (multiCurrentMsg (countCurrent data)) skillHint
      else .ok data (if 1 < countInProgress data then [inProgressWarning] else [])

/-- `formatParseError`. -/
def formatParseError (e hint : Str) : Str :=
  "❌ Plan validation failed:\n\n".data ++ e ++ "\n\n💡 ".data ++ hint

-- ==========================================
-- SESSION RESOLUTION  (getRootSessionID)
-- ==========================================

/-- The host session query `ctx.client.session.get(...).data?.parentID`,
collapsed to one function: `none` models both a missing record and an
absent `parentID`; the empty string is also falsy in the source's check
and is handled explicitly in the loop. -/
def SessionParent : Type := Str → Option Str

/-- The body of the bounded `for` loop of `getRootSessionID` (10
iterations). -/
def resolveLoop (parent : SessionParent) : Nat → Str → Except Str Str
  | 0, _ => .error "Failed to resolve root session: maximum traversal depth exceeded".data
  | fuel + 1, cur =>
    match parent cur with
    | none => .ok cur
    | some p => if p.isEmpty then .ok cur else resolveLoop parent fuel p

/-- `getRootSessionID`: fail fast on a falsy session id, then follow parent
links for at most 10 steps. -/
def getRootSessionID (parent : SessionParent) (sessionID : Option Str) : Except Str Str :=
  match sessionID with
  | none => .error "sessionID is required to resolve root session scope".data
  | some sid =>
    if sid.isEmpty then .error "sessionID is required to resolve root session scope".data
    else resolveLoop parent 10 sid

-- ==========================================
-- PLAN STORE TOOLS  (plan_save / plan_read)
-- ==========================================

/-- POSIX `path.join` for the plain relative segments used by the plugin
(no normalisation is ever needed for them). -/
def pathJoin (a b : Str) : Str := a ++ '/' :: b

/-- Simplified POSIX `path.resolve(base, p)` (absolute paths win; no `..`
normalisation — the only `..` path produced is consulted opaquely through
the environment). -/
def pathResolve (base p : Str) : Str :=
  match p with
  | '/' :: _ => p
  | _ => base ++ '/' :: p

/-- Filesystem model for the plan store: a partial map of file contents, a
set of created directories, and optional injected read failures (an
`error.code` other than `ENOENT`, e.g. `EACCES`). -/
structure FS where
  file : Str → Option Str
  dirs : Str → Bool
  readFail : Str → Option Str

/-- `fs.writeFile`. -/
def fsWrite (fs : FS) (p c : Str) : FS :=
  { fs with file := fun q => if q = p then some c else fs.file q }

/-- `fs.mkdir(..., { recursive: true })` (recorded; contents untouched). -/
def fsMkdirp (fs : FS) (p : Str) : FS :=
  { fs with dirs := fun q => if q = p then true else fs.dirs q }

/-- `fs.readFile`: an injected failure code wins; otherwise a missing file
raises `ENOENT` and an existing one returns its content. -/
def fsRead (fs : FS) (p : Str) : Except Str Str :=
  match fs.readFail p with
  | some code => .error code
  | none =>
    match fs.file p with
    | some c => .ok c
    | none => .error "ENOENT".data

/-- Errors a tool call can raise: a thrown session-resolution error, or a
re-raised filesystem error (identified by its `code`). -/
inductive ToolErr where
  | session (msg : Str)
  | io (code : Str)
deriving DecidableEq, Repr

/-- Environment closed over by the tools: the session-parent query and the
computed `baseDir` (home, product path and project identity joined). -/
structure ToolEnv where
  parent : SessionParent
  baseDir : Str

def planFileName : Str := "plan.md".data

/-- Resolved path of the plan file for a root session. -/
def planPathOf (env : ToolEnv) (rootID : Str) : Str :=
  pathJoin (pathJoin env.baseDir rootID) planFileName

def noSessionSaveMsg : Str := "❌ plan_save requires sessionID. This is a system error.".data
def noSessionReadMsg : Str := "❌ plan_read requires sessionID. This is a system error.".data

/-- `plan_save.execute`: guard on the session id, resolve the root session
(which may throw), create the session directory, validate the content, and
only on success write the raw markdown text verbatim. -/
def planSaveExecute (env : ToolEnv) (fs : FS) (content : Str) (sessionID : Option Str) :
    Except ToolErr (Str × FS) :=
  match sessionID with
  | none => .ok (noSessionSaveMsg, fs)
  | some sid =>
    if sid.isEmpty then .ok (noSessionSaveMsg, fs)
    else
      match getRootSessionID env.parent (some sid) with
      | .error e => .error (.session e)
      | .ok rootID =>
        let sessionDir := pathJoin env.baseDir rootID
        let fs1 := fsMkdirp fs sessionDir
        match parsePlanMarkdown content with
        | .err e hint => .ok (formatParseError e hint, fs1)
        | .ok _ warnings =>
          let fs2 := fsWrite fs1 (pathJoin sessionDir planFileName) content
          let warningText :=
            if 0 < warnings.length then
              " (".data ++ natToStr warnings.length ++ " warnings: ".data ++
                List.intercalate ", ".data warnings ++ ")".data
            else []
          .ok ("Plan saved.".data ++ warningText, fs2)

/-- `plan_read.execute`: guard on the session id, resolve the root session,
read the plan file; `ENOENT` maps to the sentinel `"No plan found."`, any
other read error is re-raised unchanged. -/
def planReadExecute (env : ToolEnv) (fs : FS) (sessionID : Option Str) :
    Except ToolErr Str :=
  match sessionID with
  | none => .ok noSessionReadMsg
  | some sid =>
    if sid.isEmpty then .ok noSessionReadMsg
    else
      match getRootSessionID env.parent (some sid) with
      | .error e => .error (.session e)
      | .ok rootID =>
        match fsRead fs (planPathOf env rootID) with
        | .ok c => .ok c
        | .error code =>
          if code = "ENOENT".data then .ok "No plan found.".data
          else .error (.io code)

-- ==========================================
-- PROJECT IDENTITY  (getProjectId)
-- ==========================================

/-- Kind of a filesystem entry as reported by `stat`. -/
inductive StatKind where
  | file
  | dir
  | other
deriving DecidableEq, Repr

/-- Result of the spawned `git rev-list --max-parents=0 --all` process:
`exit = none` models the 5-second timeout (caught and treated as exit
code 1); `stdout` is the captured standard output. -/
structure SpawnResult where
  exit : Option Nat
  stdout : Str

/-- External world consulted by `getProjectId`: filesystem queries, the
spawned git process, and the SHA-256 path hash (an external crypto
primitive, modelled as an oracle — `getProjectId` only pipes it through). -/
structure GitEnv where
  stat : Str → Option StatKind
  fileExists : Str → Bool
  fileText : Str → Str
  revList : SpawnResult
  hashPath : Str → Str

/-- The `^gitdir:\s*(.+)$` multiline match: the first line starting with
`gitdir:` whose remainder is non-empty.  The caller trims the captured
group, and trimming the raw remainder gives the same result as trimming
the group for every backtracking outcome of `\s*(.+)`, so the remainder is
returned directly. -/
def gitdirLine : List Str → Option Str
  | [] => none
  | line :: rest =>
    if startsWith "gitdir:".data line && !(line.drop 7).isEmpty then some (line.drop 7)
    else gitdirLine rest

/-- JS string comparison `a < b || a === b` on UTF-16 code units (the
sorted values in scope are ASCII, where code units and scalars agree). -/
def strLeb : Str → Str → Bool
  | [], _ => true
  | _ :: _, [] => false
  | a :: as, b :: bs =>
    if a < b then true
    else if a = b then strLeb as bs
    else false

/-- `Array.prototype.sort()` with the default comparator: the unique
permutation sorted by `strLeb`. -/
def sortStrs (l : List Str) : List Str :=
  List.insertionSort (fun a b => strLeb a b = true) l

def isHexDigitI (c : Char) : Bool :=
  c.isDigit || (decide ('a' ≤ c) && decide (c ≤ 'f')) || (decide ('A' ≤ c) && decide (c ≤ 'F'))

/-- The cache regex `^[a-f0-9]{40}$` with the `i` flag. -/
def matchesHex40 (l : Str) : Bool := l.length == 40 && l.all isHexDigitI

/-- The cache regex `^[a-f0-9]{16}$` with the `i` flag. -/
def matchesHex16 (l : Str) : Bool := l.length == 16 && l.all isHexDigitI

/-- The stdout post-processing of the rev-list query:
`split("\n").filter(Boolean).map(trim).sort()`. -/
def processedRoots (env : GitEnv) : List Str :=
  sortStrs ((((splitOnChar '\n' env.revList.stdout).filter (fun x => !x.isEmpty)).map trimJS))

/-- The generation tail of `getProjectId`: run the rev-list query, take the
lexicographically smallest root hash when the query succeeds and yields a
well-formed hash, otherwise fall back to the path hash.  The best-effort
cache write is a logged side effect without influence on the result. -/
def generateId (env : GitEnv) (projectRoot : Str) : Str :=
  let exitCode := match env.revList.exit with
    | none => 1
    | some e => e
  if exitCode = 0 then
    match processedRoots env with
    | r0 :: _ => if matchesHex40 r0 then r0 else env.hashPath projectRoot
    | [] => env.hashPath projectRoot
  else env.hashPath projectRoot

/-- `getProjectId`: guard the argument, locate the git metadata directory
(following a worktree indirection file when `.git` is a file), consult the
shape-validated cache, and otherwise derive the identity from the smallest
root commit with a path-hash fallback. -/
def getProjectId (env : GitEnv) (projectRoot : Str) : Except Str Str :=
  if projectRoot.isEmpty then
    .error "getProjectId: projectRoot is required and must be a string".data
  else
    let gitPath := pathJoin projectRoot ".git".data
    match env.stat gitPath with
    | none => .ok (env.hashPath projectRoot)
    | some kind =>
      let gitDirE : Except Str Str :=
        match kind with
        | .file =>
          match gitdirLine (splitOnChar '\n' (env.fileText gitPath)) with
          | none =>
            .error ("getProjectId: .git file exists but has invalid format at ".data ++ gitPath)
          | some g =>
            let resolvedGitdir := pathResolve projectRoot (trimJS g)
            let commondirPath := pathJoin resolvedGitdir "commondir".data
            let gitDir :=
              if env.fileExists commondirPath then
                pathResolve resolvedGitdir (trimJS (env.fileText commondirPath))
              else pathResolve resolvedGitdir "../..".data
            match env.stat gitDir with
            | some .dir => .ok gitDir
            | _ =>
              .error ("getProjectId: Resolved gitdir ".data ++ gitDir ++
                " is not a directory".data)
        | _ => .ok gitPath
      match gitDirE with
      | .error e => .error e
      | .ok gitDir =>
        let cacheFile := pathJoin gitDir "opencode".data
        if env.fileExists cacheFile then
          let cached := trimJS (env.fileText cacheFile)
          if matchesHex40 cached || matchesHex16 cached then .ok cached
          else .ok (generateId env projectRoot)
        else .ok (generateId env projectRoot)

-- ==========================================
-- CANONICAL PLAN TEXTS
-- ==========================================

/-- Data of one task line of a canonical plan text (the id is kept as its
two digit strings). -/
structure CanonTask where
  a : Str
  b : Str
  checked : Bool
  text : Str
deriving DecidableEq, Repr

/-- Data of one phase block of a canonical plan text. -/
structure CanonPhase where
  num : Str
  name : Str
  status : Str
  tasks : List CanonTask
deriving DecidableEq, Repr

/-- Data of a canonical plan text: frontmatter values, goal line, phase
blocks. -/
structure CanonPlan where
  status : Str
  phase : Str
  updated : Str
  goal : Str
  phases : List CanonPhase
deriving DecidableEq, Repr

/-- Canonical task line `- [ |x] <a>.<b> <text>`. -/
def renderTask (t : CanonTask) : Str :=
  "- [".data ++ (if t.checked then "x".data else " ".data) ++ "] ".data ++
    t.a ++ ".".data ++ t.b ++ " ".data ++ t.text ++ "\n".data

/-- Canonical phase block `## Phase <N>: <name> [<STATUS>]` plus its task
lines. -/
def renderPhase (ph : CanonPhase) : Str :=
  "## Phase ".data ++ ph.num ++ ": ".data ++ ph.name ++ " [".data ++ ph.status ++
    "]\n".data ++ (ph.tasks.map renderTask).flatten

/-- One extra frontmatter line `key: value` (used for the
unknown-keys-are-stripped claim). -/
def renderFmExtra (kv : Str × Str) : Str :=
  "\n".data ++ kv.1 ++ ": ".data ++ kv.2

/-- Canonical frontmatter body with optional extra `key: value` lines. -/
def renderFm (p : CanonPlan) (extras : List (Str × Str)) : Str :=
  "status: ".data ++ p.status ++ "\nphase: ".data ++ p.phase ++
    "\nupdated: ".data ++ p.updated ++ (extras.map renderFmExtra).flatten

/-- A full canonical plan text with optional extra frontmatter lines. -/
def renderPlanWith (p : CanonPlan) (extras : List (Str × Str)) : Str :=
  "---\n".data ++ renderFm p extras ++ "\n---\n".data ++
    "## Goal\n".data ++ p.goal ++ "\n".data ++ (p.phases.map renderPhase).flatten

/-- A full canonical plan text in exactly the documented format. -/
def renderPlan (p : CanonPlan) : Str := renderPlanWith p []

/-- No character of `l` is in `bad`. -/
def noChar (bad : List Char) (l : Str) : Prop := ∀ c ∈ l, c ∉ bad

instance (bad : List Char) (l : Str) : Decidable (noChar bad l) := by
  unfold noChar; infer_instance

/-- Well-formedness of one canonical task: a real two-part id and task text
that stays on its line without the current-marker arrow, heading marks or
emphasis stars. -/
def CanonTask.WF (t : CanonTask) : Prop :=
  t.a ≠ [] ∧ t.a.all Char.isDigit = true ∧
  t.b ≠ [] ∧ t.b.all Char.isDigit = true ∧
  t.text ≠ [] ∧ trimJS t.text = t.text ∧ noChar ['\n', '←', '#', '*'] t.text

instance (t : CanonTask) : Decidable t.WF := by unfold CanonTask.WF; infer_instance

/-- Well-formedness of one canonical phase: positive number, a trimmed
single-line name without `[`, a valid status, and at least one
well-formed task. -/
def CanonPhase.WF (ph : CanonPhase) : Prop :=
  ph.num ≠ [] ∧ ph.num.all Char.isDigit = true ∧ 0 < natOfDigits ph.num ∧
  ph.name ≠ [] ∧ trimJS ph.name = ph.name ∧ noChar ['\n', '['] ph.name ∧
  ph.status ∈ phaseStatusValues ∧
  ph.tasks ≠ [] ∧ ∀ t ∈ ph.tasks, t.WF

instance (ph : CanonPhase) : Decidable ph.WF := by unfold CanonPhase.WF; infer_instance

/-- Well-formedness of a canonical plan text: a valid status, a positive
phase counter, a `YYYY-MM-DD` date, a trimmed single-line goal of at least
10 characters without headings, and at least one well-formed phase. -/
def CanonPlan.WF (p : CanonPlan) : Prop :=
  p.status ∈ planStatusValues ∧
  p.phase ≠ [] ∧ p.phase.all Char.isDigit = true ∧ 0 < natOfDigits p.phase ∧
  matchesDateRe p.updated = true ∧
  10 ≤ p.goal.length ∧ trimJS p.goal = p.goal ∧ noChar ['\n', '#'] p.goal ∧
  p.phases ≠ [] ∧ ∀ ph ∈ p.phases, ph.WF

instance (p : CanonPlan) : Decidable p.WF := by unfold CanonPlan.WF; infer_instance

/-- Well-formedness of an extra frontmatter line for the
unknown-keys claim: a trimmed single-line key without colons that is none
of the three schema keys and does not look like a `---` delimiter, and a
trimmed single-line value. -/
def ExtraWF (kv : Str × Str) : Prop :=
  kv.1 ≠ [] ∧ trimJS kv.1 = kv.1 ∧ noChar [':', '\n', '#'] kv.1 ∧
  startsWith "---".data kv.1 = false ∧
  kv.1 ≠ "status".data ∧ kv.1 ≠ "phase".data ∧ kv.1 ≠ "updated".data ∧
  kv.2 ≠ [] ∧ trimJS kv.2 = kv.2 ∧ noChar ['\n', '#'] kv.2

instance (kv : Str × Str) : Decidable (ExtraWF kv) := by unfold ExtraWF; infer_instance

/-- Raw task the extractor recovers from a canonical task line. -/
def rawTaskOf (t : CanonTask) : RawTask :=
  ⟨t.a ++ '.' :: t.b, t.checked, t.text, false, none⟩

/-- Raw phase the extractor recovers from a canonical phase block. -/
def rawPhaseOf (ph : CanonPhase) : RawPhase :=
  ⟨natOfDigits ph.num, ph.name, ph.status, ph.tasks.map rawTaskOf⟩

/-- Validated task the schema produces for a canonical task line. -/
def vTaskOf (t : CanonTask) : VTask :=
  ⟨t.a ++ '.' :: t.b, t.checked, t.text, false, none⟩

/-- Validated phase the schema produces for a canonical phase block. -/
def vPhaseOf (ph : CanonPhase) : VPhase :=
  ⟨natOfDigits ph.num, ph.name, ph.status, ph.tasks.map vTaskOf⟩

/-- Validated plan for a canonical plan text; phase order and task order
are the document order by construction. -/
def planOf (p : CanonPlan) : Plan :=
  ⟨⟨p.status, (natOfDigits p.phase : Int), p.updated⟩, p.goal, p.phases.map vPhaseOf⟩

/-- Warnings `parsePlanMarkdown` reports for a canonical plan text. -/
def warningsOf (p : CanonPlan) : List Str :=
  if 1 < (p.phases.filter (fun ph => ph.status == "IN PROGRESS".data)).length then
    [inProgressWarning]
  else []

-- ==========================================
-- CONCRETE WITNESS DATA
-- ==========================================

/-- Scenario-A-style canonical plan. -/
def exTask : CanonTask := ⟨"1".data, "1".data, false, "Do the thing".data⟩
def exPhase : CanonPhase := ⟨"1".data, "Setup".data, "IN PROGRESS".data, [exTask]⟩
def exPlan : CanonPlan :=
  ⟨"in-progress".data, "1".data, "2025-01-01".data, "Ship the thing".data, [exPhase]⟩

/-- Scenario-B-style text: schema-valid plan with two tasks marked
`← CURRENT`. -/
def twoCurrentText : Str :=
  ("---\nstatus: in-progress\nphase: 1\nupdated: 2025-01-01\n---\n## Goal\n" ++
    "Ship the thing\n## Phase 1: Setup [IN PROGRESS]\n- [ ] 1.1 Do it ← CURRENT\n" ++
    "- [ ] 1.2 More ← CURRENT\n").data

/-- Task line with a citation token and no current marker. -/
def citationLineA : Str := "- [x] 1.1 Do it `ref:abc-def-ghi`\n".data

/-- Task line in the spec's canonical shape:
`- [x] <a>.<b> <task text> ← CURRENT  ref-token` (two spaces before the
backtick, as in the format grammar of the spec). -/
def citationLineB : Str := "- [ ] 1.2 Other ← CURRENT  `ref:abc-def-ghi`\n".data

/-- Session-parent map realising a chain of exactly 9 parent links
`s0 → s1 → … → s9` with `s9` the root. -/
def chainParent : SessionParent := fun sid =>
  if sid = "s0".data then some "s1".data
  else if sid = "s1".data then some "s2".data
  else if sid = "s2".data then some "s3".data
  else if sid = "s3".data then some "s4".data
  else if sid = "s4".data then some "s5".data
  else if sid = "s5".data then some "s6".data
  else if sid = "s6".data then some "s7".data
  else if sid = "s7".data then some "s8".data
  else if sid = "s8".data then some "s9".data
  else none

/-- The nodes of the chain above, in traversal order. -/
def chainIds : List Str :=
  ["s0".data, "s1".data, "s2".data, "s3".data, "s4".data,
   "s5".data, "s6".data, "s7".data, "s8".data, "s9".data]

/-- Session-parent map of a cyclic (hence arbitrarily deep) session graph:
every session's parent is `c`. -/
def cyclicParent : SessionParent := fun _ => some "c".data

/-- Tool environment used by the plan-store witnesses: every session is its
own root. -/
def exToolEnv : ToolEnv := ⟨fun _ => none, "/base".data⟩

/-- Filesystem with no files, no dirs, no injected failures. -/
def emptyFS : FS := ⟨fun _ => none, fun _ => false, fun _ => none⟩

/-- Filesystem raising `EACCES` when the witness plan file is read. -/
def eaccesFS : FS :=
  ⟨fun _ => none, fun _ => false,
   fun p => if p = planPathOf exToolEnv "sid".data then some "EACCES".data else none⟩

/-- Filesystem holding a previously stored plan at the witness path. -/
def prevPlanFS : FS :=
  ⟨fun p => if p = planPathOf exToolEnv "sid".data then some "old plan".data else none,
   fun _ => false, fun _ => none⟩

def hashA : Str := "aaaaaaaaaaaaaaaaaaaaaaaaaaaaaaaaaaaaaaaa".data
def hashB : Str := "bbbbbbbbbbbbbbbbbbbbbbbbbbbbbbbbbbbbbbbb".data

/-- Git environment for the identity witness: `.git` is a directory, the
cache file exists but is malformed, and the rev-list query succeeds with
two root hashes in non-sorted order. -/
def exGitEnv : GitEnv :=
  { stat := fun p => if p = "/repo/.git".data then some .dir else none
    fileExists := fun p => decide (p = "/repo/.git/opencode".data)
    fileText := fun p => if p = "/repo/.git/opencode".data then "not-hex!".data else []
    revList := ⟨some 0, hashB ++ '\n' :: hashA ++ ['\n']⟩
    hashPath := fun _ => "0123456789abcdef".data }

/-- Same environment with the rev-list output lines in the other order. -/
def exGitEnvPerm : GitEnv :=
  { exGitEnv with revList := ⟨some 0, hashA ++ '\n' :: hashB ++ ['\n']⟩ }

/-- Extra frontmatter lines used by the unknown-keys witness. -/
def exExtras : List (Str × Str) :=
  [("owner".data, "kenny".data), ("priority".data, "high".data)]

/-- The plan the schema accepts for the Scenario-B text (both tasks
current). -/
def twoCurrentPlan : Plan :=
  ⟨⟨"in-progress".data, 1, "2025-01-01".data⟩, "Ship the thing".data,
   [⟨1, "Setup".data, "IN PROGRESS".data,
     [⟨"1.1".data, false, "Do it".data, true, none⟩,
      ⟨"1.2".data, false, "More".data, true, none⟩]⟩]⟩

/-- Issues the schema reports for the unparsable witness content. -/
def invalidIssues : List Issue :=
  [⟨"frontmatter".data, "Required field missing".data⟩,
   ⟨"goal".data, "Required field missing".data⟩,
   ⟨"phases".data, "Plan must have at least one phase".data⟩]

/-- The depth-exceeded error text of `getRootSessionID`. -/
def depthErrMsg : Str :=
  "Failed to resolve root session: maximum traversal depth exceeded".data

/-- Boolean chain predicate: consecutive elements are linked by the
session-parent map (nothing is said about the parent of the last
element). -/
def chainLinkedB (parent : SessionParent) : List Str → Bool
  | s :: s2 :: rest => parent s == some s2 && chainLinkedB parent (s2 :: rest)
  | _ => true

/-- Boolean chain predicate: consecutive elements are linked and the last
element has no parent (a rooted parent chain). -/
def chainTermB (parent : SessionParent) : List Str → Bool
  | [] => true
  | [s] => parent s == none
  | s :: s2 :: rest => parent s == some s2 && chainTermB parent (s2 :: rest)

-- ==========================================
-- BASIC LEMMAS
-- ==========================================

theorem startsWith_append (p l : Str) : startsWith p (p ++ l) = true := by
  induction p with
  | nil => rfl
  | cons c cs ih => simp [startsWith, ih]

theorem startsWith_false_of_head_ne {pc c : Char} (ps l : Str) (h : pc ≠ c) :
    startsWith (pc :: ps) (c :: l) = false := by
  simp [startsWith]
  intro hcc
  exact absurd hcc h

theorem startsWith_append_of_le (p a b : Str) (h : p.length ≤ a.length) :
    startsWith p (a ++ b) = startsWith p a := by
  induction p generalizing a with
  | nil => simp [startsWith]
  | cons pc ps ih =>
    cases a with
    | nil => simp at h
    | cons c cs =>
      simp only [List.cons_append, startsWith]
      simp only [List.length_cons, Nat.succ_le_succ_iff] at h
      rw [show cs.append b = cs ++ b from rfl, ih cs h]

theorem takeWhile_append_all {p : Char → Bool} {a : Str} (b : Str)
    (h : ∀ c ∈ a, p c = true) : (a ++ b).takeWhile p = a ++ b.takeWhile p := by
  induction a with
  | nil => simp
  | cons c cs ih =>
    have hc : p c = true := h c (by simp)
    simp only [List.cons_append, List.takeWhile_cons, hc, if_true]
    rw [ih (fun x hx => h x (by simp [hx]))]

theorem dropWhile_append_all {p : Char → Bool} {a : Str} (b : Str)
    (h : ∀ c ∈ a, p c = true) : (a ++ b).dropWhile p = b.dropWhile p := by
  induction a with
  | nil => simp
  | cons c cs ih =>
    have hc : p c = true := h c (by simp)
    simp only [List.cons_append, List.dropWhile_cons, hc, if_true]
    exact ih (fun x hx => h x (by simp [hx]))

theorem takeWhile_eq_self_of_all {p : Char → Bool} {a : Str}
    (h : ∀ c ∈ a, p c = true) : a.takeWhile p = a := by
  induction a with
  | nil => simp
  | cons c cs ih =>
    simp only [List.takeWhile_cons, h c (by simp), if_true]
    rw [ih (fun x hx => h x (by simp [hx]))]

theorem dropWhile_eq_nil_of_all {p : Char → Bool} {a : Str}
    (h : ∀ c ∈ a, p c = true) : a.dropWhile p = [] := by
  induction a with
  | nil => simp
  | cons c cs ih =>
    simp only [List.dropWhile_cons, h c (by simp), if_true]
    exact ih (fun x hx => h x (by simp [hx]))

theorem dropWhile_length_le' (p : Char → Bool) (l : Str) :
    (l.dropWhile p).length ≤ l.length := by
  induction l with
  | nil => simp
  | cons c cs ih =>
    simp only [List.dropWhile_cons]
    split
    · exact Nat.le_succ_of_le ih
    · simp

theorem dropWhile_eq_self_of_length (p : Char → Bool) (l : Str)
    (h : (l.dropWhile p).length = l.length) : l.dropWhile p = l := by
  cases l with
  | nil => simp
  | cons c cs =>
    simp only [List.dropWhile_cons] at h ⊢
    split at h
    · exfalso
      have := dropWhile_length_le' p cs
      simp at h
      omega
    · split
      · simp_all
      · rfl

theorem isWS_cases {c : Char} (h : isWS c = true) :
    c = ' ' ∨ c = '\t' ∨ c = '\n' ∨ c = '\r' ∨ c = '\x0b' ∨ c = '\x0c' := by
  have h' := h
  simp [isWS] at h'
  tauto

theorem isWS_false_of_isDigit {c : Char} (h : c.isDigit = true) : isWS c = false := by
  rcases Bool.eq_false_or_eq_true (isWS c) with ht | hf
  · exfalso
    rcases isWS_cases ht with rfl | rfl | rfl | rfl | rfl | rfl <;> exact absurd h (by decide)
  · exact hf

theorem ne_of_isDigit {c x : Char} (h : c.isDigit = true) (hx : x.isDigit = false) : c ≠ x := by
  intro he
  rw [he, hx] at h
  cases h

theorem dropWhile_eq_self_of_all_false {p : Char → Bool} {l : Str}
    (h : ∀ c ∈ l, p c = false) : l.dropWhile p = l := by
  cases l with
  | nil => simp
  | cons c cs => simp [List.dropWhile_cons, h c (by simp)]

theorem trim_no_ws {l : Str} (h : ∀ c ∈ l, isWS c = false) : trimJS l = l := by
  unfold trimJS trimL trimR
  rw [dropWhile_eq_self_of_all_false h,
    dropWhile_eq_self_of_all_false (fun c hc => h c (List.mem_reverse.mp hc)),
    List.reverse_reverse]

theorem trimR_length_le (l : Str) : (trimR l).length ≤ l.length := by
  unfold trimR
  rw [List.length_reverse]
  calc (l.reverse.dropWhile isWS).length ≤ l.reverse.length := dropWhile_length_le' _ _
    _ = l.length := List.length_reverse l

theorem trim_parts {l : Str} (h : trimJS l = l) : trimL l = l ∧ trimR l = l := by
  have hlen : l.length ≤ (trimL l).length := by
    conv_lhs => rw [← h]
    exact trimR_length_le (trimL l)
  have h1 : trimL l = l :=
    dropWhile_eq_self_of_length _ _ (Nat.le_antisymm (dropWhile_length_le' _ _) hlen)
  refine ⟨h1, ?_⟩
  unfold trimJS at h
  rw [h1] at h
  exact h

theorem head_not_ws_of_trimL {c : Char} {cs : Str} (h1 : trimL (c :: cs) = c :: cs) :
    isWS c = false := by
  by_contra hc
  simp only [Bool.not_eq_false] at hc
  unfold trimL at h1
  rw [List.dropWhile_cons, if_pos hc] at h1
  have hle := dropWhile_length_le' isWS cs
  rw [h1] at hle
  simp at hle

theorem trimL_append {x : Str} (y : Str) (h1 : trimL x = x) (hx : x ≠ []) :
    trimL (x ++ y) = x ++ y := by
  cases x with
  | nil => exact absurd rfl hx
  | cons c cs =>
    have hc := head_not_ws_of_trimL h1
    unfold trimL
    simp [List.dropWhile_cons, hc]

theorem trimR_append_space {x : Str} (h2 : trimR x = x) : trimR (x ++ [' ']) = x := by
  unfold trimR at h2 ⊢
  rw [List.reverse_append]
  simp only [List.reverse_cons, List.reverse_nil, List.nil_append, List.singleton_append]
  rw [List.dropWhile_cons, if_pos (show isWS ' ' = true from rfl)]
  exact h2

theorem trim_append_space {x : Str} (h : trimJS x = x) (hx : x ≠ []) :
    trimJS (x ++ [' ']) = x := by
  obtain ⟨h1, h2⟩ := trim_parts h
  unfold trimJS
  rw [show trimL (x ++ [' ']) = x ++ [' '] from trimL_append [' '] h1 hx]
  exact trimR_append_space h2

theorem trim_cons_space {x : Str} (h : trimJS x = x) : trimJS (' ' :: x) = x := by
  obtain ⟨h1, h2⟩ := trim_parts h
  unfold trimJS trimL
  rw [List.dropWhile_cons, if_pos (show isWS ' ' = true from rfl)]
  unfold trimL at h1
  rw [h1]
  exact h2

theorem mem_dropWhile_of_not {p : Char → Bool} {c : Char} {l : Str}
    (hm : c ∈ l) (hc : p c = false) : c ∈ l.dropWhile p := by
  induction l with
  | nil => cases hm
  | cons d ds ih =>
    rw [List.dropWhile_cons]
    rcases List.mem_cons.mp hm with rfl | hm'
    · rw [hc]
      simp
    · split
      · exact ih hm'
      · simp [hm']

theorem trim_ne_nil_of_mem {c : Char} {l : Str} (hm : c ∈ l) (hc : isWS c = false) :
    trimJS l ≠ [] := by
  unfold trimJS trimR trimL
  intro h
  have h1 : c ∈ l.dropWhile isWS := mem_dropWhile_of_not hm hc
  have h2 : c ∈ (l.dropWhile isWS).reverse.dropWhile isWS :=
    mem_dropWhile_of_not (List.mem_reverse.mpr h1) hc
  rw [List.reverse_eq_nil_iff.mp h] at h2
  cases h2

theorem splitOnChar_ne_nil (sep : Char) (l : Str) : splitOnChar sep l ≠ [] := by
  cases l with
  | nil => simp [splitOnChar]
  | cons c cs =>
    unfold splitOnChar
    split
    · simp
    · split <;> simp

theorem splitOnChar_no_sep {sep : Char} {l : Str} (h : ∀ c ∈ l, c ≠ sep) :
    splitOnChar sep l = [l] := by
  induction l with
  | nil => rfl
  | cons c cs ih =>
    have hcs := ih (fun x hx => h x (by simp [hx]))
    unfold splitOnChar
    rw [if_neg (by simp [h c (by simp)]), hcs]

theorem splitOnChar_append {sep : Char} {a : Str} (b : Str) (h : ∀ c ∈ a, c ≠ sep) :
    splitOnChar sep (a ++ sep :: b) = a :: splitOnChar sep b := by
  induction a with
  | nil => simp [splitOnChar]
  | cons c cs ih =>
    have hcs := ih (fun x hx => h x (by simp [hx]))
    rw [List.cons_append]
    conv_lhs => rw [splitOnChar]
    rw [if_neg (by simp [h c (by simp)]), hcs]

theorem joinStr_splitOnChar (sep : Char) (l : Str) : joinStr [sep] (splitOnChar sep l) = l := by
  induction l with
  | nil => rfl
  | cons c cs ih =>
    obtain ⟨s, ss, hss⟩ : ∃ s ss, splitOnChar sep cs = s :: ss := by
      cases hx : splitOnChar sep cs with
      | nil => exact absurd hx (splitOnChar_ne_nil sep cs)
      | cons s ss => exact ⟨s, ss, rfl⟩
    rw [hss] at ih
    unfold splitOnChar
    split
    case isTrue hc =>
      rw [hss]
      have hc' : c = sep := by simpa using hc
      cases ss with
      | nil => simp [joinStr] at ih ⊢; simp [hc', ih]
      | cons s2 ss2 => simp [joinStr] at ih ⊢; simp [hc', ih]
    case isFalse hc =>
      rw [hss]
      cases ss with
      | nil => simp [joinStr] at ih ⊢; simp [ih]
      | cons s2 ss2 =>
        simp only [joinStr] at ih ⊢
        rw [← ih]
        simp

theorem splitFirst_at {pat : Str} (b : Str) (hp : pat ≠ []) :
    splitFirst pat (pat ++ b) = some ([], b) := by
  cases hpat : pat with
  | nil => exact absurd hpat hp
  | cons pc ps =>
    rw [List.cons_append]
    unfold splitFirst
    rw [if_pos (by rw [← List.cons_append, ← hpat]; exact startsWith_append pat b)]
    rw [← List.cons_append, ← hpat, List.drop_left]

theorem splitFirst_cons_not {pat : Str} {c : Char} {l : Str}
    (h : startsWith pat (c :: l) = false) :
    splitFirst pat (c :: l) = (splitFirst pat l).map (fun ab => (c :: ab.1, ab.2)) := by
  conv_lhs => rw [splitFirst]
  rw [if_neg (by simp [h])]
  cases splitFirst pat l with
  | none => rfl
  | some ab => cases ab; rfl

theorem splitFirst_skip {pc : Char} {ps a : Str} (b : Str) (h : ∀ c ∈ a, c ≠ pc) :
    splitFirst (pc :: ps) (a ++ b) =
      (splitFirst (pc :: ps) b).map (fun ab => (a ++ ab.1, ab.2)) := by
  induction a with
  | nil =>
    simp only [List.nil_append]
    cases splitFirst (pc :: ps) b with
    | none => simp
    | some ab => cases ab; simp
  | cons c cs ih =>
    rw [List.cons_append,
      splitFirst_cons_not (startsWith_false_of_head_ne _ _ (Ne.symm (h c (by simp)))),
      ih (fun x hx => h x (by simp [hx]))]
    cases splitFirst (pc :: ps) b with
    | none => simp
    | some ab => cases ab; simp

theorem matchTaskId_length_lt {l idStr res : Str} (h : matchTaskId l = some (idStr, res)) :
    res.length < l.length := by
  simp only [matchTaskId] at h
  split at h
  · exact absurd h (by simp)
  case isFalse hne =>
    split at h
    case _ r' heq =>
      split at h
      · exact absurd h (by simp)
      · have hres : res = r'.dropWhile Char.isDigit := by
          simpa using congrArg (fun o => (o.map Prod.snd).getD []) h.symm
        have h1 := dropWhile_length_le' Char.isDigit r'
        have h2 := dropWhile_length_le' Char.isDigit l
        rw [heq] at h2
        simp only [List.length_cons] at h2
        rw [hres]
        omega
    case _ => exact absurd h (by simp)

theorem matchCitation_length_le {l : Str} {c res : Str} (h : matchCitation l = some (c, res)) :
    res.length ≤ l.length := by
  simp only [matchCitation] at h
  split at h
  case _ l1 =>
    split at h
    · exact absurd h (by simp)
    · split at h
      case _ l2 heq2 =>
        split at h
        · exact absurd h (by simp)
        · split at h
          case _ l3 heq3 =>
            split at h
            · exact absurd h (by simp)
            · split at h
              case _ l4 heq4 =>
                have hres : res = l4 := by
                  simpa using congrArg (fun o => (o.map Prod.snd).getD []) h.symm
                have b1 := dropWhile_length_le' isLowerAZ l1
                have b2 := dropWhile_length_le' isLowerAZ l2
                have b3 := dropWhile_length_le' isLowerAZ l3
                rw [heq2] at b1
                rw [heq3] at b2
                rw [heq4] at b3
                simp only [List.length_cons] at b1 b2 b3 ⊢
                rw [hres]
                omega
              case _ => exact absurd h (by simp)
          case _ => exact absurd h (by simp)
      case _ => exact absurd h (by simp)
  case _ => exact absurd h (by simp)

theorem matchTask_some_lt {l : Str} {t : RawTask} {res : Str} (h : matchTask l = some (t, res)) :
    res.length < l.length := by
  simp only [matchTask] at h
  split at h
  case _ box r0 =>
    have hr1 : (if startsWith ['*', '*'] r0 then r0.drop 2 else r0).length ≤ r0.length := by
      split <;> simp
    split at h
    · split at h
      case _ idStr r2 heqId =>
        have hId := matchTaskId_length_lt heqId
        split at h
        case _ r3 =>
          simp only [List.length_cons] at hId
          split at h
          · exact absurd h (by simp)
          case isFalse hcon =>
            have hr4 := dropWhile_length_le'
              (fun ch => ch != '←' && ch != '\n') r3
            have hr5 :
                (if startsWith ['←', ' ', 'C', 'U', 'R', 'R', 'E', 'N', 'T']
                      (r3.dropWhile (fun ch => ch != '←' && ch != '\n')) then
                    (r3.dropWhile (fun ch => ch != '←' && ch != '\n')).drop 9
                  else r3.dropWhile (fun ch => ch != '←' && ch != '\n')).length ≤
                  (r3.dropWhile (fun ch => ch != '←' && ch != '\n')).length := by
              split
              · simp
              · exact Nat.le_refl _
            split at h
            case _ cit r6 heqC =>
              have hC := matchCitation_length_le heqC
              have hres : res = r6 := by
                simpa using congrArg (fun o => (o.map Prod.snd).getD []) h.symm
              rw [hres]
              simp only [List.length_cons]
              omega
            case _ =>
              have hres :
                  res = if startsWith "← CURRENT".data
                          (r3.dropWhile (fun ch => ch != '←' && ch != '\n')) then
                        (r3.dropWhile (fun ch => ch != '←' && ch != '\n')).drop 9
                      else r3.dropWhile (fun ch => ch != '←' && ch != '\n') := by
                simpa using congrArg (fun o => (o.map Prod.snd).getD []) h.symm
              rw [hres]
              simp only [List.length_cons]
              omega
        case _ => exact absurd h (by simp)
      case _ => exact absurd h (by simp)
    · exact absurd h (by simp)
  case _ => exact absurd h (by simp)

theorem takeBody_snd_le (l : Str) : (takeBody l).2.length ≤ l.length := by
  induction l with
  | nil => simp [takeBody]
  | cons c cs ih =>
    unfold takeBody
    split
    · simp
    · simpa using Nat.le_succ_of_le ih

theorem matchPhaseHeader_some_lt {l : Str} {n : Nat} {nm st res : Str}
    (h : matchPhaseHeader l = some (n, nm, st, res)) : res.length < l.length := by
  simp only [matchPhaseHeader] at h
  split at h
  case _ l1 =>
    split at h
    · exact absurd h (by simp)
    · split at h
      case _ l2 heq2 =>
        split at h
        · exact absurd h (by simp)
        · split at h
          case _ l3 heq3 =>
            split at h
            · exact absurd h (by simp)
            · split at h
              case _ r' heq4 =>
                have hres : res = r' := by
                  simpa using congrArg (fun o => (o.map (fun x => x.2.2.2)).getD []) h.symm
                have b1 := dropWhile_length_le' Char.isDigit l1
                have b2 := dropWhile_length_le' (fun ch => ch != '[') l2
                have b3 := dropWhile_length_le' (fun ch => ch != ']') l3
                rw [heq2] at b1
                rw [heq3] at b2
                rw [heq4] at b3
                simp only [List.length_cons] at b1 b2 b3 ⊢
                rw [hres]
                omega
              case _ => exact absurd h (by simp)
          case _ => exact absurd h (by simp)
      case _ => exact absurd h (by simp)
  case _ => exact absurd h (by simp)

theorem extractTasksGo_nil (f : Nat) : extractTasksGo f [] = [] := by
  cases f <;> rfl

theorem extractTasksGo_congr : ∀ f1 : Nat, ∀ f2 : Nat, ∀ l : Str,
    l.length ≤ f1 → l.length ≤ f2 → extractTasksGo f1 l = extractTasksGo f2 l := by
  intro f1
  induction f1 with
  | zero =>
    intro f2 l h1 _
    have : l = [] := List.length_eq_zero.mp (Nat.le_zero.mp h1)
    subst this
    rw [extractTasksGo_nil, extractTasksGo_nil]
  | succ f ih =>
    intro f2 l h1 h2
    cases l with
    | nil => rw [extractTasksGo_nil, extractTasksGo_nil]
    | cons c cs =>
      cases f2 with
      | zero => simp at h2
      | succ f2' =>
        simp only [extractTasksGo]
        cases hm : matchTask (c :: cs) with
        | some tr =>
          obtain ⟨t, r⟩ := tr
          have hlt := matchTask_some_lt hm
          simp only [List.length_cons] at hlt h1 h2
          show t :: extractTasksGo f r = t :: extractTasksGo f2' r
          rw [ih f2' r (by omega) (by omega)]
        | none =>
          simp only [List.length_cons] at h1 h2
          show extractTasksGo f cs = extractTasksGo f2' cs
          exact ih f2' cs (by omega) (by omega)

theorem extractTasks_cons_some {c : Char} {cs : Str} {t : RawTask} {r : Str}
    (hm : matchTask (c :: cs) = some (t, r)) :
    extractTasks (c :: cs) = t :: extractTasks r := by
  unfold extractTasks
  show extractTasksGo (cs.length + 1) (c :: cs) = _
  simp only [extractTasksGo]
  rw [hm]
  have hlt := matchTask_some_lt hm
  simp only [List.length_cons] at hlt
  show t :: extractTasksGo cs.length r = t :: extractTasksGo r.length r
  rw [extractTasksGo_congr cs.length r.length r (by omega) (Nat.le_refl _)]

theorem extractTasks_cons_none {c : Char} {cs : Str} (hm : matchTask (c :: cs) = none) :
    extractTasks (c :: cs) = extractTasks cs := by
  unfold extractTasks
  show extractTasksGo (cs.length + 1) (c :: cs) = extractTasksGo cs.length cs
  simp only [extractTasksGo]
  rw [hm]

theorem extractPhasesGo_nil (f : Nat) : extractPhasesGo f [] = [] := by
  cases f <;> rfl

theorem extractPhasesGo_congr : ∀ f1 : Nat, ∀ f2 : Nat, ∀ l : Str,
    l.length ≤ f1 → l.length ≤ f2 → extractPhasesGo f1 l = extractPhasesGo f2 l := by
  intro f1
  induction f1 with
  | zero =>
    intro f2 l h1 _
    have : l = [] := List.length_eq_zero.mp (Nat.le_zero.mp h1)
    subst this
    rw [extractPhasesGo_nil, extractPhasesGo_nil]
  | succ f ih =>
    intro f2 l h1 h2
    cases l with
    | nil => rw [extractPhasesGo_nil, extractPhasesGo_nil]
    | cons c cs =>
      cases f2 with
      | zero => simp at h2
      | succ f2' =>
        simp only [extractPhasesGo]
        cases hm : matchPhaseHeader (c :: cs) with
        | some q =>
          obtain ⟨n, nm, st, rest⟩ := q
          have hlt := matchPhaseHeader_some_lt hm
          have hbody := takeBody_snd_le rest
          simp only [List.length_cons] at hlt h1 h2
          show RawPhase.mk n (trimJS nm) (trimJS st) (extractTasks (takeBody rest).1) ::
              extractPhasesGo f (takeBody rest).2 =
            RawPhase.mk n (trimJS nm) (trimJS st) (extractTasks (takeBody rest).1) ::
              extractPhasesGo f2' (takeBody rest).2
          rw [ih f2' (takeBody rest).2 (by omega) (by omega)]
        | none =>
          simp only [List.length_cons] at h1 h2
          show extractPhasesGo f cs = extractPhasesGo f2' cs
          exact ih f2' cs (by omega) (by omega)

theorem extractPhases_cons_some {c : Char} {cs : Str} {n : Nat} {nm st rest : Str}
    (hm : matchPhaseHeader (c :: cs) = some (n, nm, st, rest)) :
    extractPhases (c :: cs) =
      { number := n, name := trimJS nm, status := trimJS st,
        tasks := extractTasks (takeBody rest).1 } :: extractPhases (takeBody rest).2 := by
  unfold extractPhases
  show extractPhasesGo (cs.length + 1) (c :: cs) = _
  simp only [extractPhasesGo]
  rw [hm]
  have hlt := matchPhaseHeader_some_lt hm
  have hbody := takeBody_snd_le rest
  simp only [List.length_cons] at hlt
  show RawPhase.mk n (trimJS nm) (trimJS st) (extractTasks (takeBody rest).1) ::
      extractPhasesGo cs.length (takeBody rest).2 =
    RawPhase.mk n (trimJS nm) (trimJS st) (extractTasks (takeBody rest).1) ::
      extractPhasesGo (takeBody rest).2.length (takeBody rest).2
  rw [extractPhasesGo_congr cs.length (takeBody rest).2.length (takeBody rest).2
    (by omega) (Nat.le_refl _)]

theorem extractPhases_cons_none {c : Char} {cs : Str} (hm : matchPhaseHeader (c :: cs) = none) :
    extractPhases (c :: cs) = extractPhases cs := by
  unfold extractPhases
  show extractPhasesGo (cs.length + 1) (c :: cs) = extractPhasesGo cs.length cs
  simp only [extractPhasesGo]
  rw [hm]

theorem matchTask_none_of_head {c : Char} (cs : Str) (h : c ≠ '-') :
    matchTask (c :: cs) = none := by
  unfold matchTask
  split
  case _ box r0 heq => simp_all
  case _ => rfl

theorem matchPhaseHeader_none_of_head {c : Char} (cs : Str) (h : c ≠ '#') :
    matchPhaseHeader (c :: cs) = none := by
  unfold matchPhaseHeader
  split
  case _ l1 heq => simp_all
  case _ => rfl

theorem matchCitation_none_of_head {c : Char} (cs : Str) (h : c ≠ '`') :
    matchCitation (c :: cs) = none := by
  unfold matchCitation
  split
  case _ l1 heq => simp_all
  case _ => rfl

theorem isBodyEnd_false_of_head {c : Char} (cs : Str) (h : c ≠ '#') :
    isBodyEnd (c :: cs) = false := by
  unfold isBodyEnd
  rw [show ("## Notes".data : Str) = '#' :: "# Notes".data from rfl,
    show ("## Blockers".data : Str) = '#' :: "# Blockers".data from rfl,
    startsWith_false_of_head_ne _ _ (Ne.symm h), startsWith_false_of_head_ne _ _ (Ne.symm h)]
  simp only [Bool.or_false]
  split
  case _ l1 heq => simp_all
  case _ => rfl

theorem extractPhases_skip {a : Str} (b : Str) (h : ∀ c ∈ a, c ≠ '#') :
    extractPhases (a ++ b) = extractPhases b := by
  induction a with
  | nil => rfl
  | cons c cs ih =>
    rw [List.cons_append,
      extractPhases_cons_none (matchPhaseHeader_none_of_head _ (h c (by simp))),
      ih (fun x hx => h x (by simp [hx]))]

theorem goalSearch_cons_not {c : Char} {cs : Str}
    (h : startsWith "## Goal\n".data (c :: cs) = false) :
    goalSearch (c :: cs) = goalSearch cs := by
  conv_lhs => rw [goalSearch]
  rw [if_neg (by simp [h])]

theorem goalSearch_skip {a : Str} (b : Str) (h : ∀ c ∈ a, c ≠ '#') :
    goalSearch (a ++ b) = goalSearch b := by
  induction a with
  | nil => rfl
  | cons c cs ih =>
    rw [List.cons_append,
      goalSearch_cons_not (by
        rw [show ("## Goal\n".data : Str) = '#' :: "# Goal\n".data from rfl]
        exact startsWith_false_of_head_ne _ _ (Ne.symm (h c (by simp)))),
      ih (fun x hx => h x (by simp [hx]))]

theorem takeBody_skip {a : Str} (b : Str) (ha : ∀ c ∈ a, c ≠ '#')
    (hb : isBodyEnd b = true) : takeBody (a ++ b) = (a, b) := by
  induction a with
  | nil =>
    simp only [List.nil_append]
    cases b with
    | nil => simp [isBodyEnd, startsWith] at hb
    | cons c cs =>
      unfold takeBody
      rw [if_pos hb]
  | cons c cs ih =>
    rw [List.cons_append]
    unfold takeBody
    rw [if_neg (by simp [isBodyEnd_false_of_head _ (ha c (by simp))]),
      ih (fun x hx => ha x (by simp [hx]))]

theorem takeBody_all {l : Str} (h : ∀ c ∈ l, c ≠ '#') : takeBody l = (l, []) := by
  induction l with
  | nil => rfl
  | cons c cs ih =>
    unfold takeBody
    rw [if_neg (by simp [isBodyEnd_false_of_head _ (h c (by simp))]),
      ih (fun x hx => h x (by simp [hx]))]

theorem scan_append {p : Char → Bool} {a : Str} (ha : ∀ c ∈ a, p c = true) {c : Char}
    (hc : p c = false) (b : Str) :
    ((a ++ c :: b).takeWhile p = a) ∧ ((a ++ c :: b).dropWhile p = c :: b) := by
  constructor
  · rw [takeWhile_append_all _ ha]
    simp [List.takeWhile_cons, hc]
  · rw [dropWhile_append_all _ ha]
    simp [List.dropWhile_cons, hc]

theorem phaseStatus_props {st : Str} (h : st ∈ phaseStatusValues) :
    st ≠ [] ∧ (∀ c ∈ st, c ≠ ']' ∧ c ≠ '#' ∧ c ≠ '\n') ∧ trimJS st = st := by
  simp only [phaseStatusValues, List.mem_cons, List.not_mem_nil, or_false] at h
  rcases h with rfl | rfl | rfl | rfl <;> exact ⟨by decide, by decide, by decide⟩

theorem planStatus_props {st : Str} (h : st ∈ planStatusValues) :
    st ≠ [] ∧ (∀ c ∈ st, c ≠ '\n' ∧ c ≠ '#' ∧ c ≠ ':') ∧ trimJS st = st := by
  simp only [planStatusValues, List.mem_cons, List.not_mem_nil, or_false] at h
  rcases h with rfl | rfl | rfl | rfl <;> exact ⟨by decide, by decide, by decide⟩

theorem dateRe_props {d : Str} (hre : matchesDateRe d = true) :
    d ≠ [] ∧ (∀ c ∈ d, c ≠ '\n' ∧ c ≠ '#' ∧ c ≠ ':') ∧ trimJS d = d := by
  unfold matchesDateRe at hre
  split at hre
  case _ c1 c2 c3 c4 c5 c6 c7 c8 c9 c10 =>
    simp only [Bool.and_eq_true, beq_iff_eq] at hre
    obtain ⟨⟨⟨⟨⟨⟨⟨⟨⟨h1, h2⟩, h3⟩, h4⟩, h5⟩, h6⟩, h7⟩, h8⟩, h9⟩, h10⟩ := hre
    subst h5
    subst h8
    have hchar : ∀ c ∈ [c1, c2, c3, c4, '-', c6, c7, '-', c9, c10],
        c ≠ '\n' ∧ c ≠ '#' ∧ c ≠ ':' ∧ isWS c = false := by
      intro c hc
      simp only [List.mem_cons, List.not_mem_nil, or_false] at hc
      rcases hc with rfl | rfl | rfl | rfl | rfl | rfl | rfl | rfl | rfl | rfl <;>
        first
        | exact ⟨by decide, by decide, by decide, by decide⟩
        | exact ⟨ne_of_isDigit (by assumption) (by decide),
            ne_of_isDigit (by assumption) (by decide),
            ne_of_isDigit (by assumption) (by decide),
            isWS_false_of_isDigit (by assumption)⟩
    refine ⟨by simp, fun c hc => ⟨(hchar c hc).1, (hchar c hc).2.1, (hchar c hc).2.2.1⟩, ?_⟩
    exact trim_no_ws (fun c hc => (hchar c hc).2.2.2)
  case _ => cases hre

theorem digits_props {a : Str} (h : a.all Char.isDigit = true) :
    (∀ c ∈ a, c.isDigit = true) ∧ (∀ c ∈ a, isWS c = false) ∧
      (∀ c ∈ a, c ≠ '\n' ∧ c ≠ '#' ∧ c ≠ ':' ∧ c ≠ '[' ∧ c ≠ '-' ∧ c ≠ '+') ∧
      trimJS a = a := by
  have hd : ∀ c ∈ a, c.isDigit = true := by simpa [List.all_eq_true] using h
  refine ⟨hd, fun c hc => isWS_false_of_isDigit (hd c hc), ?_, ?_⟩
  · exact fun c hc =>
      ⟨ne_of_isDigit (hd c hc) (by decide), ne_of_isDigit (hd c hc) (by decide),
       ne_of_isDigit (hd c hc) (by decide), ne_of_isDigit (hd c hc) (by decide),
       ne_of_isDigit (hd c hc) (by decide), ne_of_isDigit (hd c hc) (by decide)⟩
  · exact trim_no_ws (fun c hc => isWS_false_of_isDigit (hd c hc))

theorem replaceStarPairs_id {l : Str} (h : ∀ c ∈ l, c ≠ '*') : replaceStarPairs l = l := by
  induction l with
  | nil => rfl
  | cons c cs ih =>
    have hc : c ≠ '*' := h c (by simp)
    unfold replaceStarPairs
    split
    · rename_i hno heq
      exact absurd heq (by simp)
    · rename_i hno heq
      injection heq with h1 h2
      exact absurd h1 hc
    · rename_i hno heq
      injection heq with h1 h2
      subst h1
      subst h2
      rw [ih (fun x hx => h x (by simp [hx]))]

theorem matchesTaskIdRe_render {a b : Str} (ha : a.all Char.isDigit = true) (hane : a ≠ [])
    (hb : b.all Char.isDigit = true) (hbne : b ≠ []) :
    matchesTaskIdRe (a ++ '.' :: b) = true := by
  have had := (digits_props ha).1
  unfold matchesTaskIdRe
  rw [(scan_append had (by decide) b).1, (scan_append had (by decide) b).2]
  simp [List.isEmpty_iff, hane, hbne, List.dropWhile_cons, hb]

theorem matchTaskId_render {a b : Str} (ha : a.all Char.isDigit = true) (hane : a ≠ [])
    (hb : b.all Char.isDigit = true) (hbne : b ≠ []) (y : Str) :
    matchTaskId (a ++ '.' :: (b ++ ' ' :: y)) = some (a ++ '.' :: b, ' ' :: y) := by
  have had := (digits_props ha).1
  have hbd := (digits_props hb).1
  unfold matchTaskId
  rw [(scan_append had (by decide) _).1, (scan_append had (by decide) _).2,
    if_neg (by simp [hane])]
  show (if ((b ++ ' ' :: y).takeWhile Char.isDigit).isEmpty = true then none
      else some (a ++ '.' :: (b ++ ' ' :: y).takeWhile Char.isDigit,
        (b ++ ' ' :: y).dropWhile Char.isDigit)) = some (a ++ '.' :: b, ' ' :: y)
  rw [(scan_append hbd (by decide) y).1, (scan_append hbd (by decide) y).2,
    if_neg (by simp [hbne])]

theorem matchTask_render (t : CanonTask) (rest : Str) (h : t.WF) :
    matchTask (renderTask t ++ rest) = some (rawTaskOf t, '\n' :: rest) := by
  obtain ⟨hane, hadig, hbne, hbdig, htne, htrim, hchars⟩ := h
  have htpred : ∀ c ∈ t.text, (c != '←' && c != '\n') = true := by
    intro c hc
    have hcc := hchars c hc
    simp only [noChar, List.mem_cons, List.not_mem_nil, or_false, not_or] at hcc
    simp [bne, hcc.1, hcc.2.1]
  have hshape : renderTask t ++ rest =
      '-' :: ' ' :: '[' :: (if t.checked then 'x' else ' ') :: ']' :: ' ' ::
        (t.a ++ '.' :: (t.b ++ ' ' :: (t.text ++ '\n' :: rest))) := by
    unfold renderTask
    cases t.checked <;>
      simp [List.append_assoc,
        show ("- [".data : Str) = ['-', ' ', '['] from rfl,
        show ("] ".data : Str) = [']', ' '] from rfl,
        show (".".data : Str) = ['.'] from rfl,
        show (" ".data : Str) = [' '] from rfl,
        show ("\n".data : Str) = ['\n'] from rfl,
        show ("x".data : Str) = ['x'] from rfl]
  rw [hshape]
  have hstar : startsWith "**".data (t.a ++ '.' :: (t.b ++ ' ' :: (t.text ++ '\n' :: rest))) =
      false := by
    cases hta : t.a with
    | nil => exact absurd hta hane
    | cons a0 as =>
      rw [hta] at hadig
      simp only [List.all_cons, Bool.and_eq_true] at hadig
      rw [List.cons_append,
        show ("**".data : Str) = '*' :: ['*'] from rfl]
      exact startsWith_false_of_head_ne _ _ (Ne.symm (ne_of_isDigit hadig.1 (by decide)))
  have hid := matchTaskId_render hadig hane hbdig hbne (t.text ++ '\n' :: rest)
  have hcontent := scan_append (p := fun ch => ch != '←' && ch != '\n') htpred
    (c := '\n') (by decide) rest
  have hcur : startsWith "← CURRENT".data ('\n' :: rest) = false := by
    rw [show ("← CURRENT".data : Str) = '←' :: " CURRENT".data from rfl]
    exact startsWith_false_of_head_ne _ _ (by decide)
  have hchk : ((if t.checked then 'x' else ' ') == 'x') = t.checked := by
    cases t.checked <;> rfl
  have hstarfree : ∀ c ∈ t.text, c ≠ '*' := by
    intro c hc
    have hcc := hchars c hc
    simp only [List.mem_cons, List.not_mem_nil, or_false, not_or] at hcc
    exact hcc.2.2.2
  have hbox : ((if t.checked then 'x' else ' ') == ' ' ||
      (if t.checked then 'x' else ' ') == 'x') = true := by
    cases t.checked <;> rfl
  simp only [matchTask]
  rw [if_pos hbox, hstar, if_neg (by simp), hid]
  simp only [hcontent.1, hcontent.2, hcur, hchk, htrim,
    replaceStarPairs_id hstarfree, rawTaskOf]
  simp [htne]
  rw [matchCitation_none_of_head (c := '\n') rest (by decide)]

theorem matchPhaseHeader_render {num name status : Str} (tail : Str)
    (hnum : num.all Char.isDigit = true) (hnumne : num ≠ [])
    (hname : ∀ c ∈ name, c ≠ '[') (hnamene : name ≠ [])
    (hstatus : ∀ c ∈ status, c ≠ ']') (hstatusne : status ≠ []) :
    matchPhaseHeader ("## Phase ".data ++ num ++ ": ".data ++ name ++ " [".data ++
      status ++ "]\n".data ++ tail) =
    some (natOfDigits num, name ++ [' '], status, tail) := by
  have hshape : "## Phase ".data ++ num ++ ": ".data ++ name ++ " [".data ++
      status ++ "]\n".data ++ tail =
      '#' :: '#' :: ' ' :: 'P' :: 'h' :: 'a' :: 's' :: 'e' :: ' ' ::
        (num ++ ':' :: ' ' :: ((name ++ [' ']) ++ '[' :: (status ++ ']' :: '\n' :: tail))) := by
    simp [List.append_assoc,
      show ("## Phase ".data : Str) = ['#', '#', ' ', 'P', 'h', 'a', 's', 'e', ' '] from rfl,
      show (": ".data : Str) = [':', ' '] from rfl,
      show (" [".data : Str) = [' ', '['] from rfl,
      show ("]\n".data : Str) = [']', '\n'] from rfl]
  rw [hshape]
  have hnd := (digits_props hnum).1
  have hnmpred : ∀ c ∈ name ++ [' '], (c != '[') = true := by
    intro c hc
    rcases List.mem_append.mp hc with hc | hc
    · simp only [bne_iff_ne, ne_eq]
      exact hname c hc
    · simp only [List.mem_singleton] at hc
      subst hc
      decide
  have hstpred : ∀ c ∈ status, (c != ']') = true := by
    intro c hc
    simp only [bne_iff_ne, ne_eq]
    exact hstatus c hc
  have hnm := scan_append (p := fun ch => ch != '[') hnmpred (c := '[') (by decide)
    (status ++ ']' :: '\n' :: tail)
  have hst := scan_append (p := fun ch => ch != ']') hstpred (c := ']') (by decide)
    ('\n' :: tail)
  simp only [matchPhaseHeader]
  rw [(scan_append hnd (by decide) _).1, (scan_append hnd (by decide) _).2,
    if_neg (by simp [hnumne])]
  simp only [hnm.1, hnm.2]
  rw [if_neg (by simp)]
  simp only [hst.1, hst.2]
  rw [if_neg (by simp [hstatusne])]

theorem isBodyEnd_render {num : Str} (hnum : num.all Char.isDigit = true)
    (hnumne : num ≠ []) (X : Str) :
    isBodyEnd ("## Phase ".data ++ num ++ ": ".data ++ X) = true := by
  have hshape : "## Phase ".data ++ num ++ ": ".data ++ X =
      '#' :: '#' :: ' ' :: 'P' :: 'h' :: 'a' :: 's' :: 'e' :: ' ' ::
        (num ++ ':' :: ' ' :: X) := by
    simp [List.append_assoc,
      show ("## Phase ".data : Str) = ['#', '#', ' ', 'P', 'h', 'a', 's', 'e', ' '] from rfl,
      show (": ".data : Str) = [':', ' '] from rfl]
  rw [hshape]
  have hcolon : isPhaseColonAhead (num ++ ':' :: ' ' :: X) = true := by
    unfold isPhaseColonAhead
    rw [(scan_append (digits_props hnum).1 (by decide) _).1,
      (scan_append (digits_props hnum).1 (by decide) _).2]
    simp [hnumne]
  unfold isBodyEnd
  simp [hcolon]

theorem extractTasks_of_match {l : Str} {t : RawTask} {r : Str}
    (hm : matchTask l = some (t, r)) : extractTasks l = t :: extractTasks r := by
  cases l with
  | nil => exact Option.noConfusion hm
  | cons c cs => exact extractTasks_cons_some hm

theorem extractPhases_of_match {l : Str} {n : Nat} {nm st r : Str}
    (hm : matchPhaseHeader l = some (n, nm, st, r)) :
    extractPhases l =
      { number := n, name := trimJS nm, status := trimJS st,
        tasks := extractTasks (takeBody r).1 } :: extractPhases (takeBody r).2 := by
  cases l with
  | nil => exact Option.noConfusion hm
  | cons c cs => exact extractPhases_cons_some hm

theorem renderTask_no_hash {t : CanonTask} (h : t.WF) : ∀ c ∈ renderTask t, c ≠ '#' := by
  obtain ⟨hane, hadig, hbne, hbdig, htne, htrim, hchars⟩ := h
  intro c hc heq
  subst heq
  unfold renderTask at hc
  simp [show ("- [".data : Str) = ['-', ' ', '['] from rfl,
    show ("] ".data : Str) = [']', ' '] from rfl,
    show (".".data : Str) = ['.'] from rfl,
    show (" ".data : Str) = [' '] from rfl,
    show ("\n".data : Str) = ['\n'] from rfl,
    show ("x".data : Str) = ['x'] from rfl] at hc
  rcases hc with hc | hc | hc | hc <;>
    first
    | exact absurd ((digits_props hadig).1 '#' hc) (by decide)
    | exact absurd ((digits_props hbdig).1 '#' hc) (by decide)
    | exact (by simpa using hchars '#' hc)
    | exact absurd hc (by cases t.checked <;> simp)

theorem taskBlock_no_hash {ts : List CanonTask} (h : ∀ t ∈ ts, t.WF) :
    ∀ c ∈ (ts.map renderTask).flatten, c ≠ '#' := by
  intro c hc
  simp only [List.mem_flatten, List.mem_map] at hc
  obtain ⟨piece, ⟨t, ht, rfl⟩, hcp⟩ := hc
  exact renderTask_no_hash (h t ht) c hcp

theorem extractTasks_render (ts : List CanonTask) (h : ∀ t ∈ ts, t.WF) :
    extractTasks ((ts.map renderTask).flatten) = ts.map rawTaskOf := by
  induction ts with
  | nil => rfl
  | cons t tl ih =>
    simp only [List.map_cons, List.flatten_cons]
    rw [extractTasks_of_match (matchTask_render t ((tl.map renderTask).flatten) (h t (by simp))),
      extractTasks_cons_none (matchTask_none_of_head _ (by decide)),
      ih (fun x hx => h x (by simp [hx]))]

theorem renderPhase_assoc (p : CanonPhase) (rest : Str) :
    renderPhase p ++ rest =
      "## Phase ".data ++ p.num ++ ": ".data ++ p.name ++ " [".data ++ p.status ++
        "]\n".data ++ ((p.tasks.map renderTask).flatten ++ rest) := by
  unfold renderPhase
  simp [List.append_assoc]

theorem extractPhases_render (ps : List CanonPhase) (h : ∀ p ∈ ps, p.WF) :
    extractPhases ((ps.map renderPhase).flatten) = ps.map rawPhaseOf := by
  induction ps with
  | nil => rfl
  | cons p tl ih =>
    obtain ⟨hnumne, hnum, hnpos, hnamene, hnametrim, hnamechars, hstmem, htsne, htswf⟩ :=
      h p (by simp)
    obtain ⟨hstne, hstchars, hsttrim⟩ := phaseStatus_props hstmem
    have hnamebr : ∀ c ∈ p.name, c ≠ '[' := by
      intro c hc
      have := hnamechars c hc
      simp only [List.mem_cons, List.not_mem_nil, or_false, not_or] at this
      exact this.2
    have hstbr : ∀ c ∈ p.status, c ≠ ']' := fun c hc => (hstchars c hc).1
    simp only [List.map_cons, List.flatten_cons]
    rw [renderPhase_assoc]
    rw [extractPhases_of_match (matchPhaseHeader_render _ hnum hnumne hnamebr hnamene
      hstbr hstne)]
    have hblock := taskBlock_no_hash htswf
    have hbody : takeBody ((p.tasks.map renderTask).flatten ++ (tl.map renderPhase).flatten) =
        ((p.tasks.map renderTask).flatten, (tl.map renderPhase).flatten) := by
      cases htl : tl with
      | nil =>
        simp only [htl, List.map_nil, List.flatten_nil, List.append_nil]
        exact takeBody_all hblock
      | cons p2 tl2 =>
        obtain ⟨hnumne2, hnum2, _, _, _, _, _, _, _⟩ := h p2 (by simp [htl])
        refine takeBody_skip _ hblock ?_
        simp only [List.map_cons, List.flatten_cons]
        rw [renderPhase_assoc]
        rw [show "## Phase ".data ++ p2.num ++ ": ".data ++ p2.name ++ " [".data ++
            p2.status ++ "]\n".data ++
            ((p2.tasks.map renderTask).flatten ++ (tl2.map renderPhase).flatten) =
          "## Phase ".data ++ p2.num ++ ": ".data ++
            (p2.name ++ " [".data ++ p2.status ++ "]\n".data ++
              ((p2.tasks.map renderTask).flatten ++ (tl2.map renderPhase).flatten)) from by
          simp [List.append_assoc]]
        exact isBodyEnd_render hnum2 hnumne2 _
    rw [hbody]
    simp only []
    rw [trim_append_space hnametrim hnamene, hsttrim,
      extractTasks_render p.tasks htswf, ih (fun x hx => h x (by simp [hx]))]
    rfl

theorem parseIntJS_digits {d : Str} (hd : d.all Char.isDigit = true) (hne : d ≠ []) :
    parseIntJS d = some ((natOfDigits d : Int)) := by
  obtain ⟨hdall, hdws, hdne, hdtrim⟩ := digits_props hd
  unfold parseIntJS
  rw [show trimL d = d from dropWhile_eq_self_of_all_false hdws]
  cases d with
  | nil => exact absurd rfl hne
  | cons c t =>
    have hc := hdall c (by simp)
    split
    all_goals try (rename_i r heq; injection heq with h1 h2; exact absurd (h1 ▸ hc) (by decide))
    unfold digitsPrefixVal
    rw [takeWhile_eq_self_of_all hdall]
    rw [if_neg (by simp)]
    rfl

theorem parseFmLineInto_std (r : List (Str × FmVal)) {k : Str} (v : Str)
    (hk : ∀ c ∈ k, c ≠ ':') (hkne : k ≠ []) (hktrim : trimJS k = k) :
    parseFmLineInto r (k ++ ':' :: ' ' :: v) =
      recordSet r k (mkFmVal k (trimJS (' ' :: v))) := by
  unfold parseFmLineInto
  rw [splitOnChar_append _ hk]
  show (if (List.isEmpty k || (splitOnChar ':' (' ' :: v)).isEmpty) = true then r
      else recordSet r (trimJS k)
        (mkFmVal (trimJS k) (trimJS (joinStr [':'] (splitOnChar ':' (' ' :: v)))))) = _
  rw [if_neg (by simp [hkne, splitOnChar_ne_nil ':' (' ' :: v)]),
    joinStr_splitOnChar, hktrim]

theorem lookup_map_replace {k k0 : Str} (r : List (Str × FmVal)) (v : FmVal) (h : k0 ≠ k) :
    (r.map (fun kv => if kv.1 == k then (k, v) else kv)).lookup k0 = r.lookup k0 := by
  induction r with
  | nil => rfl
  | cons kv t ih =>
    simp only [List.map_cons]
    by_cases hkv : kv.1 = k
    · rw [if_pos (by simp [hkv])]
      simp only [List.lookup]
      rw [show (k0 == k) = false from by simp [h],
        show (k0 == kv.1) = false from by simp [hkv, h]]
      exact ih
    · rw [if_neg (by simp [hkv])]
      simp only [List.lookup]
      cases hb : (k0 == kv.1)
      · simpa using ih
      · simp

theorem lookup_append_single {k k0 : Str} (r : List (Str × FmVal)) (v : FmVal) (h : k0 ≠ k) :
    (r ++ [(k, v)]).lookup k0 = r.lookup k0 := by
  induction r with
  | nil => simp [List.lookup, show (k0 == k) = false from by simp [h]]
  | cons kv t ih =>
    simp only [List.cons_append, List.lookup]
    cases hb : (k0 == kv.1) <;> simp [ih]

theorem lookup_recordSet_ne {r : List (Str × FmVal)} {k k0 : Str} (v : FmVal) (h : k0 ≠ k) :
    (recordSet r k v).lookup k0 = r.lookup k0 := by
  unfold recordSet
  split
  · exact lookup_map_replace r v h
  · exact lookup_append_single r v h

theorem dashes3_key (k : Str) (rest : Str) (hne : k ≠ [])
    (hk : startsWith ['-', '-', '-'] k = false) :
    startsWith ['-', '-', '-'] (k ++ ':' :: rest) = false := by
  match k, hne with
  | [c1], _ =>
    simp [startsWith, show (('-' : Char) == ':') = false from rfl]
  | [c1, c2], _ =>
    simp [startsWith, show (('-' : Char) == ':') = false from rfl]
  | c1 :: c2 :: c3 :: t, _ =>
    rw [startsWith_append_of_le _ _ _ (by simp)]
    exact hk

theorem splitFirst_nl_step {l : Str} (h3 : startsWith ['-', '-', '-'] l = false) :
    splitFirst ['\n', '-', '-', '-'] ('\n' :: l) =
      (splitFirst ['\n', '-', '-', '-'] l).map (fun ab => ('\n' :: ab.1, ab.2)) := by
  apply splitFirst_cons_not
  simp [startsWith, h3]

theorem splitFirst_nl_chunk {a : Str} (l : Str) (ha : ∀ c ∈ a, c ≠ '\n') :
    splitFirst ['\n', '-', '-', '-'] (a ++ l) =
      (splitFirst ['\n', '-', '-', '-'] l).map (fun ab => (a ++ ab.1, ab.2)) := by
  exact splitFirst_skip l ha

theorem noChar_ne {bad : List Char} {l : Str} (h : noChar bad l) {c : Char} (hc : c ∈ l)
    {x : Char} (hx : x ∈ bad) : c ≠ x := by
  intro he
  subst he
  exact h c hc hx

theorem splitFirst_nl_char {c : Char} (l : Str) (hc : c ≠ '\n') :
    splitFirst ['\n', '-', '-', '-'] (c :: l) =
      (splitFirst ['\n', '-', '-', '-'] l).map (fun ab => (c :: ab.1, ab.2)) :=
  splitFirst_cons_not (startsWith_false_of_head_ne _ _ (Ne.symm hc))

theorem splitFirst_extras (extras : List (Str × Str)) (G : Str)
    (hex : ∀ kv ∈ extras, ExtraWF kv) :
    splitFirst ['\n', '-', '-', '-']
        ((extras.map renderFmExtra).flatten ++ '\n' :: '-' :: '-' :: '-' :: ('\n' :: G)) =
      some ((extras.map renderFmExtra).flatten, '\n' :: G) := by
  induction extras with
  | nil =>
    simp only [List.map_nil, List.flatten_nil, List.nil_append]
    exact splitFirst_at ('\n' :: G) (by simp)
  | cons kv tl ih =>
    obtain ⟨hkne, hktrim, hkchars, hkdash, _, _, _, hvne, hvtrim, hvchars⟩ :=
      hex kv (by simp)
    have hkdash3 : startsWith ['-', '-', '-'] kv.1 = false := hkdash
    have hline : renderFmExtra kv = '\n' :: (kv.1 ++ ':' :: ' ' :: kv.2) := by
      unfold renderFmExtra
      simp [show ("\n".data : Str) = ['\n'] from rfl,
        show (": ".data : Str) = [':', ' '] from rfl, List.append_assoc]
    simp only [List.map_cons, List.flatten_cons, hline, List.cons_append, List.append_assoc]
    rw [splitFirst_nl_step (dashes3_key kv.1 _ hkne hkdash3)]
    rw [splitFirst_nl_chunk _ (fun c hc => noChar_ne hkchars hc (by simp))]
    rw [splitFirst_nl_char _ (by decide)]
    rw [splitFirst_nl_char _ (by decide)]
    rw [splitFirst_nl_chunk _ (fun c hc => noChar_ne hvchars hc (by simp))]
    rw [ih (fun x hx => hex x (by simp [hx]))]
    simp [List.append_assoc]

theorem extractFrontmatter_render (p : CanonPlan) (extras : List (Str × Str)) (G : Str)
    (hst : p.status ∈ planStatusValues)
    (hph : p.phase.all Char.isDigit = true)
    (hdt : matchesDateRe p.updated = true)
    (hex : ∀ kv ∈ extras, ExtraWF kv) :
    extractFrontmatter ("---\n".data ++ renderFm p extras ++ '\n' :: '-' :: '-' :: '-' ::
        ('\n' :: G)) =
      some (parseFmRecord (renderFm p extras)) := by
  obtain ⟨hstne, hstchars, hsttrim⟩ := planStatus_props hst
  obtain ⟨hdtne, hdtchars, hdttrim⟩ := dateRe_props hdt
  have hphch := (digits_props hph).2.2.1
  have hshape : "---\n".data ++ renderFm p extras ++ '\n' :: '-' :: '-' :: '-' :: ('\n' :: G) =
      '-' :: '-' :: '-' :: '\n' ::
        (renderFm p extras ++ '\n' :: '-' :: '-' :: '-' :: ('\n' :: G)) := by
    simp [show ("---\n".data : Str) = ['-', '-', '-', '\n'] from rfl]
  rw [hshape]
  unfold extractFrontmatter
  have hsplit : splitFirst ['\n', '-', '-', '-']
      (renderFm p extras ++ '\n' :: '-' :: '-' :: '-' :: ('\n' :: G)) =
      some (renderFm p extras, '\n' :: G) := by
    unfold renderFm
    simp only [show ("status: ".data : Str) = ['s','t','a','t','u','s',':',' '] from rfl,
      show ("\nphase: ".data : Str) = ['\n','p','h','a','s','e',':',' '] from rfl,
      show ("\nupdated: ".data : Str) = ['\n','u','p','d','a','t','e','d',':',' '] from rfl,
      List.append_assoc, List.cons_append, List.nil_append]
    rw [splitFirst_nl_char _ (by decide)]
    rw [splitFirst_nl_char _ (by decide)]
    rw [splitFirst_nl_char _ (by decide)]
    rw [splitFirst_nl_char _ (by decide)]
    rw [splitFirst_nl_char _ (by decide)]
    rw [splitFirst_nl_char _ (by decide)]
    rw [splitFirst_nl_char _ (by decide)]
    rw [splitFirst_nl_char _ (by decide)]
    rw [splitFirst_nl_chunk _ (fun c hc => ((hstchars c hc).1))]
    rw [splitFirst_nl_step (startsWith_false_of_head_ne _ _ (by decide))]
    rw [splitFirst_nl_char _ (by decide)]
    rw [splitFirst_nl_char _ (by decide)]
    rw [splitFirst_nl_char _ (by decide)]
    rw [splitFirst_nl_char _ (by decide)]
    rw [splitFirst_nl_char _ (by decide)]
    rw [splitFirst_nl_char _ (by decide)]
    rw [splitFirst_nl_char _ (by decide)]
    rw [splitFirst_nl_chunk _ (fun c hc => (hphch c hc).1)]
    rw [splitFirst_nl_step (startsWith_false_of_head_ne _ _ (by decide))]
    rw [splitFirst_nl_char _ (by decide)]
    rw [splitFirst_nl_char _ (by decide)]
    rw [splitFirst_nl_char _ (by decide)]
    rw [splitFirst_nl_char _ (by decide)]
    rw [splitFirst_nl_char _ (by decide)]
    rw [splitFirst_nl_char _ (by decide)]
    rw [splitFirst_nl_char _ (by decide)]
    rw [splitFirst_nl_char _ (by decide)]
    rw [splitFirst_nl_char _ (by decide)]
    rw [splitFirst_nl_chunk _ (fun c hc => ((hdtchars c hc).1))]
    rw [splitFirst_extras extras G hex]
    simp [List.append_assoc]
  show (match splitFirst ['\n', '-', '-', '-']
      (renderFm p extras ++ '\n' :: '-' :: '-' :: '-' :: '\n' :: G) with
    | some (body, _) => some (parseFmRecord body)
    | none => none) = some (parseFmRecord (renderFm p extras))
  rw [hsplit]

theorem splitOnChar_nl_extras (a : Str) (extras : List (Str × Str)) (ha : ∀ c ∈ a, c ≠ '\n')
    (hex : ∀ kv ∈ extras, ExtraWF kv) :
    splitOnChar '\n' (a ++ (extras.map renderFmExtra).flatten) =
      a :: extras.map (fun kv => kv.1 ++ ':' :: ' ' :: kv.2) := by
  induction extras generalizing a with
  | nil => simpa using splitOnChar_no_sep ha
  | cons kv tl ih =>
    obtain ⟨hkne, hktrim, hkchars, _, _, _, _, hvne, hvtrim, hvchars⟩ := hex kv (by simp)
    have hline : renderFmExtra kv = '\n' :: (kv.1 ++ ':' :: ' ' :: kv.2) := by
      unfold renderFmExtra
      simp [show ("\n".data : Str) = ['\n'] from rfl,
        show (": ".data : Str) = [':', ' '] from rfl, List.append_assoc]
    simp only [List.map_cons, List.flatten_cons, hline]
    rw [List.cons_append, splitOnChar_append _ ha]
    rw [ih ((kv.1 ++ ':' :: ' ' :: kv.2)) (by
      intro c hc
      rcases List.mem_append.mp hc with hc | hc
      · exact noChar_ne hkchars hc (by simp)
      · simp only [List.mem_cons] at hc
        rcases hc with rfl | rfl | hc
        · decide
        · decide
        · exact noChar_ne hvchars hc (by simp))
      (fun x hx => hex x (List.mem_cons_of_mem kv hx))]

theorem lookup_foldl_extras (r : List (Str × FmVal)) (extras : List (Str × Str))
    (hex : ∀ kv ∈ extras, ExtraWF kv) (k0 : Str)
    (hk0 : k0 = "status".data ∨ k0 = "phase".data ∨ k0 = "updated".data) :
    ((extras.map (fun kv => kv.1 ++ ':' :: ' ' :: kv.2)).foldl parseFmLineInto r).lookup k0 =
      r.lookup k0 := by
  induction extras generalizing r with
  | nil => rfl
  | cons kv tl ih =>
    obtain ⟨hkne, hktrim, hkchars, _, hks, hkp, hku, hvne, hvtrim, hvchars⟩ := hex kv (by simp)
    simp only [List.map_cons, List.foldl_cons]
    rw [parseFmLineInto_std r kv.2 (fun c hc => noChar_ne hkchars hc (by simp)) hkne hktrim,
      ih _ (fun x hx => hex x (List.mem_cons_of_mem kv hx))]
    apply lookup_recordSet_ne
    rcases hk0 with rfl | rfl | rfl
    · exact Ne.symm hks
    · exact Ne.symm hkp
    · exact Ne.symm hku

theorem parseFmRecord_lookups (p : CanonPlan) (extras : List (Str × Str))
    (hst : p.status ∈ planStatusValues)
    (hph : p.phase.all Char.isDigit = true) (hphne : p.phase ≠ [])
    (hdt : matchesDateRe p.updated = true)
    (hex : ∀ kv ∈ extras, ExtraWF kv) :
    (parseFmRecord (renderFm p extras)).lookup "status".data = some (FmVal.str p.status) ∧
    (parseFmRecord (renderFm p extras)).lookup "phase".data =
      some (FmVal.num (some ((natOfDigits p.phase : Int)))) ∧
    (parseFmRecord (renderFm p extras)).lookup "updated".data = some (FmVal.str p.updated) := by
  obtain ⟨hstne, hstchars, hsttrim⟩ := planStatus_props hst
  obtain ⟨hdtne, hdtchars, hdttrim⟩ := dateRe_props hdt
  obtain ⟨hphall, hphws, hphne', hphtrim⟩ := digits_props hph
  unfold parseFmRecord
  rw [show renderFm p extras =
      ("status: ".data ++ p.status) ++ '\n' :: (("phase: ".data ++ p.phase) ++ '\n' ::
        (("updated: ".data ++ p.updated) ++ (extras.map renderFmExtra).flatten)) from by
    unfold renderFm
    simp [List.append_assoc,
      show ("\nphase: ".data : Str) = '\n' :: "phase: ".data from rfl,
      show ("\nupdated: ".data : Str) = '\n' :: "updated: ".data from rfl]]
  have hlit1 : ∀ x ∈ ("status: ".data : Str), x ≠ '\n' := by decide
  have hlit2 : ∀ x ∈ ("phase: ".data : Str), x ≠ '\n' := by decide
  have hlit3 : ∀ x ∈ ("updated: ".data : Str), x ≠ '\n' := by decide
  rw [splitOnChar_append _ (by
    intro c hc
    rcases List.mem_append.mp hc with hc | hc
    · exact hlit1 c hc
    · exact (hstchars c hc).1)]
  rw [splitOnChar_append _ (by
    intro c hc
    rcases List.mem_append.mp hc with hc | hc
    · exact hlit2 c hc
    · exact (hphne' c hc).1)]
  rw [splitOnChar_nl_extras _ extras (by
    intro c hc
    rcases List.mem_append.mp hc with hc | hc
    · exact hlit3 c hc
    · exact (hdtchars c hc).1) hex]
  simp only [List.foldl_cons]
  rw [show ("status: ".data ++ p.status : Str) = "status".data ++ ':' :: ' ' :: p.status from by
      simp [show ("status: ".data : Str) = "status".data ++ [':', ' '] from rfl,
        List.append_assoc],
    parseFmLineInto_std [] p.status (by decide) (by decide) (by decide),
    show ("phase: ".data ++ p.phase : Str) = "phase".data ++ ':' :: ' ' :: p.phase from by
      simp [show ("phase: ".data : Str) = "phase".data ++ [':', ' '] from rfl,
        List.append_assoc],
    parseFmLineInto_std _ p.phase (by decide) (by decide) (by decide),
    show ("updated: ".data ++ p.updated : Str) =
        "updated".data ++ ':' :: ' ' :: p.updated from by
      simp [show ("updated: ".data : Str) = "updated".data ++ [':', ' '] from rfl,
        List.append_assoc],
    parseFmLineInto_std _ p.updated (by decide) (by decide) (by decide)]
  rw [trim_cons_space hsttrim, trim_cons_space hphtrim, trim_cons_space hdttrim]
  rw [show ∀ v1 v2 v3,
      recordSet (recordSet (recordSet [] "status".data v1) "phase".data v2) "updated".data v3 =
      [("status".data, v1), ("phase".data, v2), ("updated".data, v3)] from by
    intro v1 v2 v3
    simp [recordSet]]
  rw [lookup_foldl_extras _ extras hex _ (by simp),
    lookup_foldl_extras _ extras hex _ (by simp),
    lookup_foldl_extras _ extras hex _ (by simp)]
  refine ⟨?_, ?_, ?_⟩
  · simp [List.lookup, mkFmVal]
  · rw [show mkFmVal "phase".data p.phase = FmVal.num (parseIntJS p.phase) from by
      simp [mkFmVal]]
    rw [parseIntJS_digits hph hphne]
    simp [List.lookup]
  · rw [show mkFmVal "updated".data p.updated = FmVal.str p.updated from by
      simp [mkFmVal]]
    simp [List.lookup]

theorem checkFrontmatter_render (p : CanonPlan) (extras : List (Str × Str))
    (hst : p.status ∈ planStatusValues)
    (hph : p.phase.all Char.isDigit = true) (hphne : p.phase ≠ [])
    (hpos : 0 < natOfDigits p.phase)
    (hdt : matchesDateRe p.updated = true)
    (hex : ∀ kv ∈ extras, ExtraWF kv) :
    checkFrontmatter (some (parseFmRecord (renderFm p extras))) =
      .ok ⟨p.status, (natOfDigits p.phase : Int), p.updated⟩ := by
  obtain ⟨hl1, hl2, hl3⟩ := parseFmRecord_lookups p extras hst hph hphne hdt hex
  have hpos' : (0 : Int) < (natOfDigits p.phase : Int) := by exact_mod_cast hpos
  unfold checkFrontmatter checkStatusFm checkPhaseFm checkUpdatedFm
  simp [hl1, hl2, hl3, hst, hpos', hdt]

theorem renderFm_no_hash (p : CanonPlan) (extras : List (Str × Str))
    (hst : p.status ∈ planStatusValues) (hph : p.phase.all Char.isDigit = true)
    (hdt : matchesDateRe p.updated = true) (hex : ∀ kv ∈ extras, ExtraWF kv) :
    ∀ c ∈ renderFm p extras, c ≠ '#' := by
  obtain ⟨_, hstchars, _⟩ := planStatus_props hst
  obtain ⟨_, hdtchars, _⟩ := dateRe_props hdt
  have hphch := (digits_props hph).2.2.1
  have hl1 : ∀ x ∈ ("status: ".data : Str), x ≠ '#' := by decide
  have hl2 : ∀ x ∈ ("\nphase: ".data : Str), x ≠ '#' := by decide
  have hl3 : ∀ x ∈ ("\nupdated: ".data : Str), x ≠ '#' := by decide
  have hflat : ∀ c ∈ (extras.map renderFmExtra).flatten, c ≠ '#' := by
    intro c hc
    rw [List.mem_flatten] at hc
    obtain ⟨l, hl, hcl⟩ := hc
    rw [List.mem_map] at hl
    obtain ⟨kv, hkv, rfl⟩ := hl
    obtain ⟨_, _, hkchars, _, _, _, _, _, _, hvchars⟩ := hex kv hkv
    have hnl : ∀ x ∈ ("\n".data : Str), x ≠ '#' := by decide
    have hcol : ∀ x ∈ (": ".data : Str), x ≠ '#' := by decide
    unfold renderFmExtra at hcl
    simp only [List.append_assoc, List.mem_append] at hcl
    rcases hcl with hc1 | hc2 | hc3 | hc4
    · exact hnl c hc1
    · exact noChar_ne hkchars hc2 (by simp)
    · exact hcol c hc3
    · exact noChar_ne hvchars hc4 (by simp)
  intro c hc
  unfold renderFm at hc
  simp only [List.append_assoc, List.mem_append] at hc
  rcases hc with hc | hc | hc | hc | hc | hc | hc
  · exact hl1 c hc
  · exact (hstchars c hc).2.1
  · exact hl2 c hc
  · exact (hphch c hc).2.1
  · exact hl3 c hc
  · exact (hdtchars c hc).2.1
  · exact hflat c hc

theorem goalSearch_at (g rest : Str) (hg : g ≠ []) (hgch : noChar ['\n', '#'] g) :
    goalSearch ("## Goal\n".data ++ (g ++ '\n' :: rest)) = some g := by
  rw [show ("## Goal\n".data : Str) ++ (g ++ '\n' :: rest) =
      '#' :: ('#' :: ' ' :: 'G' :: 'o' :: 'a' :: 'l' :: '\n' :: (g ++ '\n' :: rest)) from rfl]
  conv_lhs => rw [goalSearch]
  rw [if_pos (by
    rw [show ('#' :: '#' :: ' ' :: 'G' :: 'o' :: 'a' :: 'l' :: '\n' ::
        (g ++ '\n' :: rest) : Str) = "## Goal\n".data ++ (g ++ '\n' :: rest) from rfl]
    exact startsWith_append _ _)]
  have hdrop : ('#' :: '#' :: ' ' :: 'G' :: 'o' :: 'a' :: 'l' :: '\n' ::
      (g ++ '\n' :: rest) : Str).drop 8 = g ++ '\n' :: rest := rfl
  rw [hdrop]
  have hscan := (scan_append (p := fun ch => ch != '\n' && ch != '#')
    (a := g) (by
      intro c hc
      have h1 := noChar_ne hgch hc (show '\n' ∈ ['\n', '#'] by simp)
      have h2 := noChar_ne hgch hc (show '#' ∈ ['\n', '#'] by simp)
      simp [h1, h2]) (c := '\n') (by simp) rest).1
  rw [hscan, if_neg (by simpa using hg)]

theorem extractGoal_pre (pre g rest : Str) (hpre : ∀ c ∈ pre, c ≠ '#')
    (hg : g ≠ []) (htrim : trimJS g = g) (hgch : noChar ['\n', '#'] g) :
    extractGoal (pre ++ ("## Goal\n".data ++ (g ++ '\n' :: rest))) = some g := by
  unfold extractGoal
  rw [goalSearch_skip _ hpre, goalSearch_at g rest hg hgch]
  show (if List.isEmpty (trimJS g) = true then none else some (trimJS g)) = some g
  rw [htrim, if_neg (by simpa using hg)]

theorem extractPhases_goal_block (g : Str) (hgch : noChar ['\n', '#'] g) (rest : Str) :
    extractPhases ("## Goal\n".data ++ (g ++ '\n' :: rest)) = extractPhases rest := by
  rw [show ("## Goal\n".data : Str) ++ (g ++ '\n' :: rest) =
      '#' :: ('#' :: ' ' :: 'G' :: 'o' :: 'a' :: 'l' :: '\n' :: (g ++ '\n' :: rest)) from rfl]
  rw [extractPhases_cons_none (by rfl)]
  rw [extractPhases_cons_none (by rfl)]
  rw [show (' ' :: 'G' :: 'o' :: 'a' :: 'l' :: '\n' :: (g ++ '\n' :: rest) : Str) =
      ([' ', 'G', 'o', 'a', 'l', '\n'] ++ g ++ ['\n']) ++ rest from by
    simp [List.append_assoc]]
  apply extractPhases_skip
  intro c hc
  simp only [List.append_assoc, List.mem_append, List.mem_cons, List.not_mem_nil,
    or_false] at hc
  rcases hc with (rfl | rfl | rfl | rfl | rfl | rfl) | hc | rfl <;>
    first
    | decide
    | exact noChar_ne hgch hc (by simp)

theorem extractMarkdownParts_render (p : CanonPlan) (extras : List (Str × Str))
    (h : p.WF) (hex : ∀ kv ∈ extras, ExtraWF kv) :
    extractMarkdownParts (renderPlanWith p extras) =
      { frontmatter := some (parseFmRecord (renderFm p extras))
        goal := some p.goal
        phases := p.phases.map rawPhaseOf } := by
  obtain ⟨hst, hphne, hph, hpos, hdt, hglen, hgtrim, hgch, hpsne, hpswf⟩ := h
  have hgne : p.goal ≠ [] := by
    intro hnil
    rw [hnil] at hglen
    simp at hglen
  have hshape : renderPlanWith p extras =
      "---\n".data ++ renderFm p extras ++ '\n' :: '-' :: '-' :: '-' ::
        ('\n' :: ("## Goal\n".data ++
          (p.goal ++ '\n' :: (p.phases.map renderPhase).flatten))) := by
    unfold renderPlanWith
    simp [List.append_assoc, show ("\n---\n".data : Str) = ['\n', '-', '-', '-', '\n'] from
      rfl, show ("\n".data : Str) = ['\n'] from rfl]
  have hpre : ∀ c ∈ ("---\n".data ++ renderFm p extras ++
      '\n' :: '-' :: '-' :: '-' :: ['\n'] : Str), c ≠ '#' := by
    intro c hc
    simp only [List.mem_append, List.mem_cons, List.not_mem_nil, or_false] at hc
    rcases hc with (hc | hc) | hc
    · rcases hc with rfl | rfl | rfl | rfl <;> decide
    · exact renderFm_no_hash p extras hst hph hdt hex c hc
    · rcases hc with rfl | rfl | rfl | rfl | rfl <;> decide
  have hshape2 : renderPlanWith p extras =
      ("---\n".data ++ renderFm p extras ++ '\n' :: '-' :: '-' :: '-' :: ['\n']) ++
        ("## Goal\n".data ++
          (p.goal ++ '\n' :: (p.phases.map renderPhase).flatten)) := by
    rw [hshape]
    simp [List.append_assoc]
  have h1 : extractFrontmatter (renderPlanWith p extras) =
      some (parseFmRecord (renderFm p extras)) := by
    rw [hshape]
    exact extractFrontmatter_render p extras _ hst hph hdt hex
  have h2 : extractGoal (renderPlanWith p extras) = some p.goal := by
    rw [hshape2]
    exact extractGoal_pre _ _ _ hpre hgne hgtrim hgch
  have h3 : extractPhases (renderPlanWith p extras) = p.phases.map rawPhaseOf := by
    rw [hshape2, extractPhases_skip _ hpre, extractPhases_goal_block _ hgch,
      extractPhases_render _ hpswf]
  unfold extractMarkdownParts
  rw [h1, h2, h3]

theorem checkTask_render (pfx : Str) (t : CanonTask) (h : t.WF) :
    checkTask pfx (rawTaskOf t) = .ok (vTaskOf t) := by
  obtain ⟨hane, ha, hbne, hb, htne, htrim, hchars⟩ := h
  unfold checkTask rawTaskOf vTaskOf
  rw [matchesTaskIdRe_render ha hane hb hbne]
  simp [htne]

theorem checkTasksFrom_render (pfx : Str) (ts : List CanonTask) (h : ∀ t ∈ ts, t.WF) :
    ∀ i : Nat, checkTasksFrom pfx i (ts.map rawTaskOf) = .ok (ts.map vTaskOf) := by
  induction ts with
  | nil => intro i; rfl
  | cons t tl ih =>
    intro i
    simp only [List.map_cons]
    unfold checkTasksFrom
    rw [checkTask_render _ t (h t (by simp)), ih (fun x hx => h x (by simp [hx])) (i + 1)]

theorem checkPhase_render (pfx : Str) (ph : CanonPhase) (h : ph.WF) :
    checkPhase pfx (rawPhaseOf ph) = .ok (vPhaseOf ph) := by
  obtain ⟨hnumne, hnum, hnpos, hnamene, hnametrim, hnamechars, hstmem, htsne, htswf⟩ := h
  unfold checkPhase rawPhaseOf vPhaseOf
  rw [checkTasksFrom_render _ ph.tasks htswf 0]
  simp [hnpos, hnamene, hstmem, htsne]

theorem checkPhasesFrom_render (ps : List CanonPhase) (h : ∀ p ∈ ps, p.WF) :
    ∀ i : Nat, checkPhasesFrom i (ps.map rawPhaseOf) = .ok (ps.map vPhaseOf) := by
  induction ps with
  | nil => intro i; rfl
  | cons p tl ih =>
    intro i
    simp only [List.map_cons]
    unfold checkPhasesFrom
    rw [checkPhase_render _ p (h p (by simp)), ih (fun x hx => h x (by simp [hx])) (i + 1)]

theorem checkPhases_render (ps : List CanonPhase) (hne : ps ≠ []) (h : ∀ p ∈ ps, p.WF) :
    checkPhases (ps.map rawPhaseOf) = .ok (ps.map vPhaseOf) := by
  unfold checkPhases
  rw [if_neg (by simpa using hne)]
  exact checkPhasesFrom_render ps h 0

theorem countCurrent_planOf (p : CanonPlan) : countCurrent (planOf p) = 0 := by
  unfold countCurrent planOf
  simp only []
  induction p.phases with
  | nil => rfl
  | cons ph tl ih =>
    simp only [List.map_cons, List.sum_cons, ih, Nat.add_zero]
    show ((((vPhaseOf ph).tasks).filter (fun t => t.isCurrent)).length) = 0
    unfold vPhaseOf
    simp only []
    induction ph.tasks with
    | nil => rfl
    | cons t ttl ih2 => simp [vTaskOf, List.filter, ih2]

theorem filterIP_map (ps : List CanonPhase) :
    (ps.map vPhaseOf).filter (fun ph => ph.status == "IN PROGRESS".data) =
      (ps.filter (fun ph => ph.status == "IN PROGRESS".data)).map vPhaseOf := by
  induction ps with
  | nil => rfl
  | cons ph tl ih =>
    simp only [List.map_cons, List.filter_cons]
    rw [show ((vPhaseOf ph).status == "IN PROGRESS".data) =
        (ph.status == "IN PROGRESS".data) from rfl]
    split <;> simp [ih]

theorem countInProgress_planOf (p : CanonPlan) :
    countInProgress (planOf p) =
      (p.phases.filter (fun ph => ph.status == "IN PROGRESS".data)).length := by
  unfold countInProgress planOf
  simp only []
  rw [filterIP_map]
  simp

theorem trim_renderPlanWith_ne (p : CanonPlan) (extras : List (Str × Str)) :
    trimJS (renderPlanWith p extras) ≠ [] := by
  apply trim_ne_nil_of_mem (c := '-')
  · unfold renderPlanWith
    simp only [List.append_assoc, List.mem_append]
    left
    decide
  · decide

theorem parsePlanMarkdown_renderWith (p : CanonPlan) (extras : List (Str × Str))
    (h : p.WF) (hex : ∀ kv ∈ extras, ExtraWF kv) :
    parsePlanMarkdown (renderPlanWith p extras) = .ok (planOf p) (warningsOf p) := by
  obtain ⟨hst, hphne, hph, hpos, hdt, hglen, hgtrim, hgch, hpsne, hpswf⟩ := h
  unfold parsePlanMarkdown
  rw [if_neg (by simpa using trim_renderPlanWith_ne p extras)]
  rw [extractMarkdownParts_render p extras
    ⟨hst, hphne, hph, hpos, hdt, hglen, hgtrim, hgch, hpsne, hpswf⟩ hex]
  unfold planSafeParse
  simp only []
  rw [checkFrontmatter_render p extras hst hph hphne hpos hdt hex]
  rw [show checkGoal (some p.goal) = (.ok p.goal : Except (List Issue) Str) from by
    unfold checkGoal
    show (if 10 ≤ List.length p.goal then (Except.ok p.goal : Except (List Issue) Str)
        else Except.error [⟨"goal".data, "Goal must be at least 10 characters".data⟩]) =
      Except.ok p.goal
    rw [if_pos hglen]]
  rw [checkPhases_render p.phases hpsne hpswf]
  show (if 1 < countCurrent (planOf p) then
      ParseResult.err (multiCurrentMsg (countCurrent (planOf p))) skillHint
    else ParseResult.ok (planOf p)
      (if 1 < countInProgress (planOf p) then [inProgressWarning] else [])) =
    ParseResult.ok (planOf p) (warningsOf p)
  rw [if_neg (by rw [countCurrent_planOf]; omega)]
  unfold warningsOf
  rw [countInProgress_planOf]

-- ==========================================
-- CLAIM THEOREMS
-- ==========================================

/-- C1: for every well-formed canonical plan text, `parsePlanMarkdown`
succeeds (`ok = true`), returning the validated plan whose phases are the
rendered phase blocks and whose tasks are the rendered task lines, each in
exactly the document order (the phase list and every task list of the
result are the order-preserving images of the canonical lists that were
rendered in that order). -/
theorem C1_canonical_parse_ok (p : CanonPlan) (h : p.WF) :
    parsePlanMarkdown (renderPlan p) = .ok (planOf p) (warningsOf p) ∧
    (planOf p).phases = p.phases.map vPhaseOf ∧
    ∀ ph : CanonPhase, (vPhaseOf ph).tasks = ph.tasks.map vTaskOf :=
  ⟨parsePlanMarkdown_renderWith p [] h (by simp), rfl, fun _ => rfl⟩

/-- C1 witness: the Scenario-A-style plan text parses to its canonical
plan. -/
theorem C1_witness : exPlan.WF ∧
    parsePlanMarkdown (renderPlan exPlan) = .ok (planOf exPlan) (warningsOf exPlan) :=
  ⟨by decide, (C1_canonical_parse_ok exPlan (by decide)).1⟩

/-- C10: unknown frontmatter keys are tolerated and stripped: adding extra
`key: value` lines to the frontmatter of a well-formed canonical plan text
leaves `parsePlanMarkdown` succeeding with the same validated plan, whose
frontmatter consists of exactly the three fields status, phase and updated
(the `Frontmatter` record of the result). -/
theorem C10_extra_keys_stripped (p : CanonPlan) (extras : List (Str × Str)) (h : p.WF)
    (hex : ∀ kv ∈ extras, ExtraWF kv) :
    parsePlanMarkdown (renderPlanWith p extras) = .ok (planOf p) (warningsOf p) ∧
    (planOf p).frontmatter =
      ⟨p.status, (natOfDigits p.phase : Int), p.updated⟩ :=
  ⟨parsePlanMarkdown_renderWith p extras h hex, rfl⟩

/-- C10 witness: the Scenario-A-style plan text with two extra frontmatter
lines parses to the same canonical plan. -/
theorem C10_witness : exPlan.WF ∧ (∀ kv ∈ exExtras, ExtraWF kv) ∧
    parsePlanMarkdown (renderPlanWith exPlan exExtras) =
      .ok (planOf exPlan) (warningsOf exPlan) :=
  ⟨by decide, by decide,
   (C10_extra_keys_stripped exPlan exExtras (by decide) (by decide)).1⟩

/-- C8: blank input is rejected by the guard: for every input whose
JS-trimmed form is empty, `parsePlanMarkdown` returns the error
`Empty content provided` together with the fixed format-spec hint — the
guard fires before any extraction, so the result does not depend on
`extractMarkdownParts`; totality of the embedded function is the
`ParseResult` return type itself. -/
theorem C8_empty_guard (content : Str) (h : trimJS content = []) :
    parsePlanMarkdown content = .err "Empty content provided".data skillHint ∧
    skillHint = "Load skill(\x27plan-protocol\x27) for the full format spec.".data := by
  constructor
  · unfold parsePlanMarkdown
    rw [if_pos (by simp [h])]
  · rfl

/-- C8 witness: a whitespace-only input trips the guard. -/
theorem C8_witness : trimJS "  \n  ".data = [] ∧
    parsePlanMarkdown "  \n  ".data = .err "Empty content provided".data skillHint :=
  ⟨by decide, (C8_empty_guard ("  \n  ".data) (by decide)).1⟩

/-- C5: contrary to the claim, the citation token of a task line written in
the documented shapes is NOT captured into the citation field: without a
current marker the token stays embedded in the content field, and with the
marker (followed by spacing) the citation is also left empty — the capture
is not independent of the surrounding captures. -/
theorem C5_citation_not_captured :
    (extractTasks (citationLineA ++ citationLineB)).map
        (fun t => (t.citation, t.isCurrent, t.content)) =
      [(none, false, "Do it `ref:abc-def-ghi`".data),
       (none, true, "Other".data)] := by decide

/-- C2 (amended): whenever the extracted candidate passes the schema and at
least two tasks across the whole plan carry the current marker,
`parsePlanMarkdown` hard-fails (returns the error variant, not a warning),
and its error message begins with
`Multiple tasks marked ← CURRENT (found n).` for the exact count n — the
full message continues with `Only one task may be current.`. -/
theorem C2_multi_current (content : Str) (data : Plan)
    (hne : trimJS content ≠ [])
    (hok : planSafeParse (extractMarkdownParts content) = .ok data)
    (h2 : 2 ≤ countCurrent data) :
    parsePlanMarkdown content = .err (multiCurrentMsg (countCurrent data)) skillHint ∧
    startsWith ("Multiple tasks marked ← CURRENT (found ".data ++
        natToStr (countCurrent data) ++ ").".data)
      (multiCurrentMsg (countCurrent data)) = true := by
  constructor
  · unfold parsePlanMarkdown
    rw [if_neg (by simpa using hne), hok]
    show (if 1 < countCurrent data then
        ParseResult.err (multiCurrentMsg (countCurrent data)) skillHint
      else ParseResult.ok data
        (if 1 < countInProgress data then [inProgressWarning] else [])) =
      ParseResult.err (multiCurrentMsg (countCurrent data)) skillHint
    rw [if_pos (by omega)]
  · unfold multiCurrentMsg
    rw [show ("). Only one task may be current.".data : Str) =
        ").".data ++ " Only one task may be current.".data from rfl]
    rw [show "Multiple tasks marked ← CURRENT (found ".data ++
        natToStr (countCurrent data) ++
        (").".data ++ " Only one task may be current.".data) =
        ("Multiple tasks marked ← CURRENT (found ".data ++
          natToStr (countCurrent data) ++ ").".data) ++
          " Only one task may be current.".data from by
      simp [List.append_assoc]]
    exact startsWith_append _ _

/-- C2 counterexample: on the Scenario-B text with two current tasks the
parse does hard-fail, but the error message is not the string the claim
quotes as the whole error — the actual message carries a second
sentence. -/
theorem C2_counterexample :
    parsePlanMarkdown twoCurrentText = .err (multiCurrentMsg 2) skillHint ∧
    multiCurrentMsg 2 ≠ "Multiple tasks marked ← CURRENT (found 2).".data := by
  constructor
  · decide
  · decide

/-- C2 witness: the Scenario-B text satisfies every hypothesis of the
amended claim and fails with the count-2 message. -/
theorem C2_witness :
    trimJS twoCurrentText ≠ [] ∧
    planSafeParse (extractMarkdownParts twoCurrentText) = .ok twoCurrentPlan ∧
    2 ≤ countCurrent twoCurrentPlan ∧
    parsePlanMarkdown twoCurrentText =
      .err (multiCurrentMsg (countCurrent twoCurrentPlan)) skillHint :=
  ⟨by decide, by rfl, by decide,
   (C2_multi_current twoCurrentText twoCurrentPlan (by decide) (by rfl) (by decide)).1⟩

/-- C6: round-trip — for every plan text that validates, `plan_save`
persists the raw text verbatim and a subsequent `plan_read` for the same
resolved root session returns exactly that text. -/
theorem C6_round_trip (env : ToolEnv) (fs : FS) (content : Str) (sid rootID : Str)
    (data : Plan) (warnings : List Str)
    (hsid : sid ≠ [])
    (hroot : getRootSessionID env.parent (some sid) = .ok rootID)
    (hparse : parsePlanMarkdown content = .ok data warnings)
    (hnofail : fs.readFail (planPathOf env rootID) = none) :
    ∃ msg fs2, planSaveExecute env fs content (some sid) = .ok (msg, fs2) ∧
      planReadExecute env fs2 (some sid) = .ok content := by
  have hsid' : List.isEmpty sid = false := by simpa using hsid
  have hsave : planSaveExecute env fs content (some sid) =
      .ok ("Plan saved.".data ++
        (if 0 < warnings.length then
          " (".data ++ natToStr warnings.length ++ " warnings: ".data ++
            List.intercalate ", ".data warnings ++ ")".data
        else []),
        fsWrite (fsMkdirp fs (pathJoin env.baseDir rootID)) (planPathOf env rootID)
          content) := by
    simp [planSaveExecute, hsid', hroot, hparse, planPathOf, pathJoin]
  have hread : planReadExecute env
      (fsWrite (fsMkdirp fs (pathJoin env.baseDir rootID)) (planPathOf env rootID) content)
      (some sid) = .ok content := by
    simp [planReadExecute, hsid', hroot, fsRead, fsWrite, fsMkdirp, hnofail]
  exact ⟨_, _, hsave, hread⟩

/-- C6 witness: saving the Scenario-A plan text into the empty store and
reading it back returns the text unchanged. -/
theorem C6_witness :
    parsePlanMarkdown (renderPlan exPlan) = .ok (planOf exPlan) (warningsOf exPlan) ∧
    ∃ msg fs2,
      planSaveExecute exToolEnv emptyFS (renderPlan exPlan) (some "sid".data) =
        .ok (msg, fs2) ∧
      planReadExecute exToolEnv fs2 (some "sid".data) = .ok (renderPlan exPlan) :=
  ⟨by decide,
   C6_round_trip exToolEnv emptyFS (renderPlan exPlan) "sid".data "sid".data
     (planOf exPlan) (warningsOf exPlan) (by decide) (by rfl) (by decide) (by rfl)⟩

/-- C7: `plan_read` with a resolvable session maps a missing plan file
(the `ENOENT` read failure) to the sentinel `No plan found.` without
raising, and re-raises every other read error unchanged, identified by its
code. -/
theorem C7_read_errors (env : ToolEnv) (fs : FS) (sid rootID : Str)
    (hsid : sid ≠ [])
    (hroot : getRootSessionID env.parent (some sid) = .ok rootID) :
    (fs.readFail (planPathOf env rootID) = none →
      fs.file (planPathOf env rootID) = none →
      planReadExecute env fs (some sid) = .ok "No plan found.".data) ∧
    (∀ code, fs.readFail (planPathOf env rootID) = some code → code ≠ "ENOENT".data →
      planReadExecute env fs (some sid) = .error (.io code)) := by
  have hsid' : List.isEmpty sid = false := by simpa using hsid
  constructor
  · intro h1 h2
    simp [planReadExecute, hsid', hroot, fsRead, h1, h2]
  · intro code h1 hcode
    simp [planReadExecute, hsid', hroot, fsRead, h1, hcode]

/-- C7 witness: with no plan file the sentinel is returned; with an
injected `EACCES` failure the error is re-raised as is. -/
theorem C7_witness :
    planReadExecute exToolEnv emptyFS (some "sid".data) = .ok "No plan found.".data ∧
    planReadExecute exToolEnv eaccesFS (some "sid".data) =
      .error (.io "EACCES".data) :=
  ⟨(C7_read_errors exToolEnv emptyFS "sid".data "sid".data (by decide) (by rfl)).1
     rfl rfl,
   (C7_read_errors exToolEnv eaccesFS "sid".data "sid".data (by decide) (by rfl)).2
     ("EACCES".data) (by rfl) (by decide)⟩

/-- C9: `plan_save` is all-or-nothing: when validation fails it returns the
formatted validation error and the filesystem keeps every stored file
unchanged (only the session directory is created; no file is written). -/
theorem C9_no_write_on_invalid (env : ToolEnv) (fs : FS) (content : Str)
    (sid rootID : Str) (e hint : Str)
    (hsid : sid ≠ [])
    (hroot : getRootSessionID env.parent (some sid) = .ok rootID)
    (hparse : parsePlanMarkdown content = .err e hint) :
    planSaveExecute env fs content (some sid) =
      .ok (formatParseError e hint, fsMkdirp fs (pathJoin env.baseDir rootID)) ∧
    ∀ p, (fsMkdirp fs (pathJoin env.baseDir rootID)).file p = fs.file p := by
  have hsid' : List.isEmpty sid = false := by simpa using hsid
  constructor
  · simp [planSaveExecute, hsid', hroot, hparse]
  · intro p
    rfl

/-- C9 witness: saving an invalid text over a previously stored plan
returns the validation error and leaves the old plan bytes in place. -/
theorem C9_witness :
    parsePlanMarkdown "x".data = .err (formatZodErrors invalidIssues) skillHint ∧
    planSaveExecute exToolEnv prevPlanFS ("x".data) (some "sid".data) =
      .ok (formatParseError (formatZodErrors invalidIssues) skillHint,
        fsMkdirp prevPlanFS (pathJoin exToolEnv.baseDir "sid".data)) ∧
    (fsMkdirp prevPlanFS (pathJoin exToolEnv.baseDir "sid".data)).file
        (planPathOf exToolEnv "sid".data) = some "old plan".data :=
  ⟨by decide,
   (C9_no_write_on_invalid exToolEnv prevPlanFS ("x".data) "sid".data "sid".data
      (formatZodErrors invalidIssues) skillHint (by decide) (by rfl) (by decide)).1,
   by decide⟩

theorem resolveLoop_term (parent : SessionParent) :
    ∀ (rest : List Str) (s : Str) (fuel : Nat),
      chainTermB parent (s :: rest) = true →
      (∀ x ∈ s :: rest, x ≠ []) →
      rest.length < fuel →
      resolveLoop parent fuel s = .ok ((s :: rest).getLast (by simp)) := by
  intro rest
  induction rest with
  | nil =>
    intro s fuel hch hne hlen
    cases fuel with
    | zero => omega
    | succ f =>
      have hp : parent s = none := by simpa [chainTermB] using hch
      simp [resolveLoop, hp]
  | cons s2 rest2 ih =>
    intro s fuel hch hne hlen
    obtain ⟨hp, hch2⟩ : parent s = some s2 ∧ chainTermB parent (s2 :: rest2) = true := by
      simpa [chainTermB] using hch
    cases fuel with
    | zero => omega
    | succ f =>
      have hs2 : s2 ≠ [] := hne s2 (by simp)
      have hstep : resolveLoop parent (f + 1) s = resolveLoop parent f s2 := by
        simp [resolveLoop, hp, show List.isEmpty s2 = false from by simpa using hs2]
      rw [hstep, ih s2 f hch2 (fun x hx => hne x (by simp [hx]))
        (by simp only [List.length_cons] at hlen; omega)]
      congr 1

theorem resolveLoop_deep (parent : SessionParent) :
    ∀ (rest : List Str) (s : Str) (fuel : Nat),
      chainLinkedB parent (s :: rest) = true →
      (∀ x ∈ s :: rest, x ≠ []) →
      fuel ≤ rest.length →
      resolveLoop parent fuel s = .error depthErrMsg := by
  intro rest
  induction rest with
  | nil =>
    intro s fuel _ _ hlen
    have h0 : fuel = 0 := by simpa using hlen
    subst h0
    rfl
  | cons s2 rest2 ih =>
    intro s fuel hch hne hlen
    obtain ⟨hp, hch2⟩ : parent s = some s2 ∧ chainLinkedB parent (s2 :: rest2) = true := by
      simpa [chainLinkedB] using hch
    cases fuel with
    | zero => rfl
    | succ f =>
      have hs2 : s2 ≠ [] := hne s2 (by simp)
      have hstep : resolveLoop parent (f + 1) s = resolveLoop parent f s2 := by
        simp [resolveLoop, hp, show List.isEmpty s2 = false from by simpa using hs2]
      rw [hstep]
      exact ih s2 f hch2 (fun x hx => hne x (by simp [hx]))
        (by simp only [List.length_cons] at hlen; omega)

/-- C4: for every session graph in which the start session heads a rooted
parent chain of exactly 9 links, `getRootSessionID` returns the topmost
ancestor (the last element of the chain, the first session without a
parent); and whenever the start session heads a linked parent chain of 10
further sessions that never ends within them — as in every chain of 11 or
more links and in every cyclic graph — it fails with the depth-exceeded
error instead of returning a value. -/
theorem C4_session_depth (parent : SessionParent) :
    (∀ (s : Str) (rest : List Str), rest.length = 9 →
      chainTermB parent (s :: rest) = true → (∀ x ∈ s :: rest, x ≠ []) →
      getRootSessionID parent (some s) = .ok ((s :: rest).getLast (by simp))) ∧
    (∀ (s : Str) (rest : List Str), rest.length = 10 →
      chainLinkedB parent (s :: rest) = true → (∀ x ∈ s :: rest, x ≠ []) →
      getRootSessionID parent (some s) = .error depthErrMsg) := by
  constructor
  · intro s rest h9 hch hne
    have hs : List.isEmpty s = false := by simpa using hne s (by simp)
    simp only [getRootSessionID, hs, Bool.false_eq_true, if_false]
    exact resolveLoop_term parent rest s 10 hch hne (by omega)
  · intro s rest h10 hch hne
    have hs : List.isEmpty s = false := by simpa using hne s (by simp)
    simp only [getRootSessionID, hs, Bool.false_eq_true, if_false]
    exact resolveLoop_deep parent rest s 10 hch hne (by omega)

/-- C4 witness: the 9-link chain resolves to its top `s9`; the cyclic graph
(arbitrarily deep) hits the depth error. -/
theorem C4_witness :
    getRootSessionID chainParent (some "s0".data) = .ok "s9".data ∧
    getRootSessionID cyclicParent (some "c".data) = .error depthErrMsg := by
  constructor
  · exact (C4_session_depth chainParent).1 ("s0".data)
      ["s1".data, "s2".data, "s3".data, "s4".data, "s5".data,
       "s6".data, "s7".data, "s8".data, "s9".data] (by decide) (by decide) (by decide)
  · exact (C4_session_depth cyclicParent).2 ("c".data)
      ["c".data, "c".data, "c".data, "c".data, "c".data,
       "c".data, "c".data, "c".data, "c".data, "c".data]
      (by decide) (by decide) (by decide)

theorem strLeb_cons (x y : Char) (xs ys : Str) :
    strLeb (x :: xs) (y :: ys) =
      if x < y then true else if x = y then strLeb xs ys else false := rfl

theorem strLeb_refl (a : Str) : strLeb a a = true := by
  induction a with
  | nil => rfl
  | cons c cs ih => simp [strLeb_cons, lt_self_iff_false, ih]

theorem strLeb_total (a : Str) : ∀ b, strLeb a b = true ∨ strLeb b a = true := by
  induction a with
  | nil =>
    intro b
    left
    rfl
  | cons c cs ih =>
    intro b
    cases b with
    | nil =>
      right
      rfl
    | cons d ds =>
      rcases lt_trichotomy c d with h | h | h
      · left
        simp [strLeb_cons, h]
      · subst h
        rcases ih ds with h2 | h2
        · left
          simp [strLeb_cons, lt_self_iff_false, h2]
        · right
          simp [strLeb_cons, lt_self_iff_false, h2]
      · right
        simp [strLeb_cons, h]

theorem strLeb_trans : ∀ (a b c : Str), strLeb a b = true → strLeb b c = true →
    strLeb a c = true := by
  intro a
  induction a with
  | nil =>
    intro b c _ _
    rfl
  | cons x xs ih =>
    intro b c hab hbc
    cases b with
    | nil => exact absurd hab (by simp [strLeb])
    | cons y ys =>
      cases c with
      | nil => exact absurd hbc (by simp [strLeb])
      | cons z zs =>
        rw [strLeb_cons] at hab hbc ⊢
        by_cases hxy : x < y
        · by_cases hyz : y < z
          · rw [if_pos (lt_trans hxy hyz)]
          · rw [if_neg hyz] at hbc
            by_cases hyz2 : y = z
            · subst hyz2
              rw [if_pos hxy]
            · rw [if_neg hyz2] at hbc
              cases hbc
        · rw [if_neg hxy] at hab
          by_cases hxy2 : x = y
          · subst hxy2
            rw [if_pos rfl] at hab
            by_cases hxz : x < z
            · rw [if_pos hxz]
            · rw [if_neg hxz] at hbc ⊢
              by_cases hxz2 : x = z
              · rw [if_pos hxz2] at hbc ⊢
                exact ih ys zs hab hbc
              · rw [if_neg hxz2] at hbc
                cases hbc
          · rw [if_neg hxy2] at hab
            cases hab

theorem strLeb_antisymm : ∀ (a b : Str), strLeb a b = true → strLeb b a = true →
    a = b := by
  intro a
  induction a with
  | nil =>
    intro b hab hba
    cases b with
    | nil => rfl
    | cons y ys => exact absurd hba (by simp [strLeb])
  | cons x xs ih =>
    intro b hab hba
    cases b with
    | nil => exact absurd hab (by simp [strLeb])
    | cons y ys =>
      rw [strLeb_cons] at hab hba
      by_cases hxy : x < y
      · rw [if_neg (lt_asymm hxy)] at hba
        by_cases hyx : y = x
        · exact absurd (hyx ▸ hxy) (lt_irrefl x)
        · rw [if_neg hyx] at hba
          cases hba
      · by_cases hxy2 : x = y
        · subst hxy2
          rw [if_neg hxy, if_pos rfl] at hab
          rw [if_neg hxy, if_pos rfl] at hba
          rw [ih ys hab hba]
        · rw [if_neg hxy, if_neg hxy2] at hab
          cases hab

theorem sortStrs_sorted (l : List Str) :
    List.Sorted (fun a b => strLeb a b = true) (sortStrs l) := by
  haveI : IsTotal Str (fun a b => strLeb a b = true) := ⟨fun a b => strLeb_total a b⟩
  haveI : IsTrans Str (fun a b => strLeb a b = true) := ⟨fun a b c => strLeb_trans a b c⟩
  exact List.sorted_insertionSort _ l

theorem sortStrs_perm (l : List Str) : (sortStrs l).Perm l :=
  List.perm_insertionSort _ l

theorem sortStrs_congr {l1 l2 : List Str} (h : l1.Perm l2) : sortStrs l1 = sortStrs l2 := by
  haveI : IsAntisymm Str (fun a b => strLeb a b = true) := ⟨fun a b => strLeb_antisymm a b⟩
  exact List.eq_of_perm_of_sorted
    ((sortStrs_perm l1).trans (h.trans (sortStrs_perm l2).symm))
    (sortStrs_sorted l1) (sortStrs_sorted l2)

/-- C3: project identity is deterministic. When the root-commit query
succeeds and the smallest processed line is a 40-hex hash, `generateId`
returns exactly that line, which belongs to the processed output and is
lexicographically least among all of its lines; the result is invariant
under any permutation of the raw query output (so two calls on an
unchanged repository agree); and a cache file whose trimmed content
matches neither hex shape is never returned and never fatal — the
identity is regenerated. -/
theorem C3_project_identity (env env2 : GitEnv) (projectRoot : Str) :
    (env.revList.exit = some 0 →
      ∀ r0 rest, processedRoots env = r0 :: rest → matchesHex40 r0 = true →
        generateId env projectRoot = r0 ∧ r0 ∈ processedRoots env ∧
        ∀ x ∈ processedRoots env, strLeb r0 x = true) ∧
    (((((splitOnChar '\n' env.revList.stdout).filter
          (fun x => !x.isEmpty)).map trimJS).Perm
        (((splitOnChar '\n' env2.revList.stdout).filter
          (fun x => !x.isEmpty)).map trimJS)) →
      env.revList.exit = env2.revList.exit →
      env.hashPath projectRoot = env2.hashPath projectRoot →
      generateId env projectRoot = generateId env2 projectRoot) ∧
    (∀ kind, projectRoot ≠ [] →
      env.stat (pathJoin projectRoot ".git".data) = some kind → kind ≠ .file →
      env.fileExists (pathJoin (pathJoin projectRoot ".git".data) "opencode".data) =
        true →
      matchesHex40 (trimJS (env.fileText
        (pathJoin (pathJoin projectRoot ".git".data) "opencode".data))) = false →
      matchesHex16 (trimJS (env.fileText
        (pathJoin (pathJoin projectRoot ".git".data) "opencode".data))) = false →
      getProjectId env projectRoot = .ok (generateId env projectRoot)) := by
  refine ⟨?_, ?_, ?_⟩
  · intro hexit r0 rest hroots hhex
    have hsorted : List.Sorted (fun a b => strLeb a b = true) (processedRoots env) :=
      sortStrs_sorted _
    rw [hroots] at hsorted
    have hmin := (List.sorted_cons.mp hsorted).1
    refine ⟨?_, ?_, ?_⟩
    · simp [generateId, hexit, hroots, hhex]
    · rw [hroots]
      exact List.mem_cons_self r0 rest
    · rw [hroots]
      intro x hx
      rcases List.mem_cons.mp hx with rfl | hx
      · exact strLeb_refl x
      · exact hmin x hx
  · intro hperm hexit hhash
    have hpr : processedRoots env = processedRoots env2 := sortStrs_congr hperm
    simp only [generateId]
    rw [hexit, hpr, hhash]
  · intro kind hrootne hstat hkind hcache hhex40 hhex16
    have hP : List.isEmpty projectRoot = false := by simpa using hrootne
    cases kind with
    | file => exact absurd rfl hkind
    | dir => simp [getProjectId, hP, hstat, hcache, hhex40, hhex16]
    | other => simp [getProjectId, hP, hstat, hcache, hhex40, hhex16]

/-- C3 witness: on the malformed-cache environment the identity is the
smaller of the two root hashes, agrees with the permuted enumeration, and
`getProjectId` regenerates instead of failing or returning the cache. -/
theorem C3_witness :
    generateId exGitEnv ("/repo".data) = hashA ∧
    generateId exGitEnv ("/repo".data) = generateId exGitEnvPerm ("/repo".data) ∧
    getProjectId exGitEnv ("/repo".data) = .ok (generateId exGitEnv ("/repo".data)) :=
  ⟨((C3_project_identity exGitEnv exGitEnvPerm ("/repo".data)).1 (by decide)
      hashA [hashB] (by decide) (by decide)).1,
   (C3_project_identity exGitEnv exGitEnvPerm ("/repo".data)).2.1 (by decide)
     (by decide) (by decide),
   (C3_project_identity exGitEnv exGitEnvPerm ("/repo".data)).2.2 .dir (by decide)
     (by rfl) (by decide) (by decide) (by decide) (by decide)⟩

end Workspace
